import Mathlib

/-!
Shallow embedding of the Photoshop Live Ditherer pixel pipeline.

Sources embedded here:
  * `src/utils/levels.ts` — `applyLevels`, `applyLevelsToImageData`
  * `src/dithering/algorithms/floydSteinberg.ts` — `findClosestColor`, `floydSteinberg`
  * `src/utils/displayCalculator.ts` — `calculateProcessedSize`, `calculateCanvasSize`,
    `getBorderColor`
  * `src/App.tsx` — the `processImage` pipeline stages, the single-slot raw-capture cache
    (`cachedRawImageRef`) and the two debounced `useEffect` reprocessing triggers.

Conventions of the embedding:
  * JavaScript numbers are modelled by exact rationals (`ℚ`).  Every arithmetic step of the
    dithering inner loop is exactly representable in binary64 (all intermediate values are
    dyadic rationals with denominator 16 and magnitude below 512), so exact rationals agree
    with the double-precision evaluation there.  Where double rounding is observable — the
    products in `displayCalculator.ts` — it is modelled explicitly by `roundDouble`.
  * A `Uint8ClampedArray` holds integers 0..255; it is modelled by `List ℕ`.  A JavaScript
    store `arr[i] = v` clamps `v` to [0,255] and rounds to the nearest integer with ties to
    even (ECMAScript `ToUint8Clamp`); out-of-bounds stores are ignored, which matches
    `List.set`.  Out-of-bounds reads never occur on the executed paths; `List.getD _ _ 0`
    is used for reads.
  * `ImageData` is modelled by `ImageDataL` (width, height, flat RGBA data).
  * Hex palette strings (`"#RRGGBB"`) are modelled as `List Char`; `parseInt(s, 16)` on the
    two-character slices is modelled by `parseHex2`, with `none` playing the role of `NaN`.
-/

/-- `Math.round`: round to the nearest integer, ties toward positive infinity
(`Math.round x = ⌊x + 0.5⌋` on the exact value of the double). -/
def jsRound (q : ℚ) : ℤ := ⌊q + 1/2⌋

/-- Round to the nearest integer with ties to even — the rounding used by the ECMAScript
`ToUint8Clamp` conversion when a non-integral double is stored into a `Uint8ClampedArray`,
and by IEEE-754 round-to-nearest. -/
def halfEvenRound (q : ℚ) : ℤ :=
  let f : ℤ := ⌊q⌋
  let r : ℚ := q - (f : ℚ)
  if r < 1/2 then f
  else if 1/2 < r then f + 1
  else if f % 2 = 0 then f else f + 1

/-- Store of an integer-valued double into a `Uint8ClampedArray` cell: `ToUint8Clamp` on an
integer argument clamps it to [0, 255] (the rounding step is the identity). -/
def toByte (z : ℤ) : ℕ := (max 0 (min 255 z)).toNat

/-- Model of `Math.max(0, Math.min(255, q))` followed by the `Uint8ClampedArray` store
(`ToUint8Clamp`): clamp to [0, 255], then round half to even.  The argument fed to this in
`floydSteinberg` (`outputData[i] + err * w / 16`) is computed exactly in binary64, so the
rational value here is the exact double value. -/
def clampStore (q : ℚ) : ℕ := (halfEvenRound (max 0 (min 255 q))).toNat

/-- `clampStore` specialised to a value given in sixteenths: the diffusion writes of
`floydSteinberg` store `outputData[i] + err * wgt / 16`, whose exact double value is
`(16 * outputData[i] + err * wgt) / 16`.  Working on the integer numerator keeps the
definition computable by kernel reduction; `clampStore16_eq` proves it agrees with
`clampStore` on the rational value. -/
def clampStore16 (v : ℤ) : ℕ :=
  let u := max 0 (min 4080 v)
  let q := u / 16
  let r := u % 16
  (if r < 8 then q else if 8 < r then q + 1 else if q % 2 = 0 then q else q + 1).toNat

/-- Fuelled floor base-2 logarithm on naturals (`⌊log₂ n⌋` for `n ≥ 1`, provided
`fuel ≥ n`); structural recursion on the fuel keeps it kernel-reducible. -/
def log2Fuel : ℕ → ℕ → ℕ
  | 0, _ => 0
  | fuel + 1, n => if n ≤ 1 then 0 else log2Fuel fuel (n / 2) + 1

/-- Fuelled ceiling base-2 logarithm on naturals (`⌈log₂ n⌉` for `n ≥ 1`, provided
`fuel ≥ n`). -/
def clog2Fuel : ℕ → ℕ → ℕ
  | 0, _ => 0
  | fuel + 1, n => if n ≤ 1 then 0 else clog2Fuel fuel ((n + 1) / 2) + 1

/-- Floor of the base-2 logarithm of a positive rational. -/
def floorLog2 (a : ℚ) : ℤ :=
  if 1 ≤ a then (log2Fuel ⌊a⌋.toNat ⌊a⌋.toNat : ℤ)
  else -(clog2Fuel ⌈a⁻¹⌉.toNat ⌈a⁻¹⌉.toNat : ℤ)

/-- Round a rational to the nearest IEEE-754 binary64 value (round to nearest, ties to
even), returned as the exact rational value of that double.  The exponent is chosen so the
53-bit significand window `[2^52, 2^53)` contains `|q| * 2^z` (with a defensive one-step
adjustment), overflow and subnormals are ignored — all quantities arising in this program
are far inside the normal range. -/
def roundDouble (q : ℚ) : ℚ :=
  if q = 0 then 0
  else
    let a := |q|
    let z0 : ℤ := 52 - floorLog2 a
    let z : ℤ :=
      if a * 2 ^ z0 < 2 ^ (52 : ℕ) then z0 + 1
      else if (2 ^ (53 : ℕ) : ℚ) ≤ a * 2 ^ z0 then z0 - 1 else z0
    let m : ℤ := halfEvenRound (a * 2 ^ z)
    (if q < 0 then -1 else 1) * (m : ℚ) / 2 ^ z

/-- `Math.pow`, used by `applyLevels` only as `Math.pow(normalized, 1 / midPoint)`.  Every
claim below exercises it only at the default `midPoint = 1.0`, where the exponent is
exactly `1` and IEEE-754 `pow(x, 1) = x` exactly; other exponents are irrelevant to the
claims and are mapped to 0 here.  Theorems that depend on the levels mid-tone curve
quantify over an arbitrary `pow` function instead of this stand-in wherever possible. -/
def powAtOne (x e : ℚ) : ℚ := if e = 1 then x else 0

/-! ### Hex colour parsing (`findClosestColor` reads `"#RRGGBB"` strings) -/

/-- Value of a single hexadecimal digit, `none` for a non-digit (as in `parseInt`). -/
def hexDigitVal (c : Char) : Option ℕ :=
  if '0' ≤ c ∧ c ≤ '9' then some (c.toNat - 48)
  else if 'a' ≤ c ∧ c ≤ 'f' then some (c.toNat - 87)
  else if 'A' ≤ c ∧ c ≤ 'F' then some (c.toNat - 55)
  else none

/-- `parseInt(s, 16)` for the (at most two character) slices taken by `findClosestColor`:
an empty or leading-non-digit string yields `NaN` (modelled as `none`); a valid leading
digit followed by a non-digit parses just the first digit. -/
def parseHex2 : List Char → Option ℕ
  | [] => none
  | [c] => hexDigitVal c
  | c₁ :: c₂ :: _ =>
    match hexDigitVal c₁ with
    | none => none
    | some a =>
      match hexDigitVal c₂ with
      | none => some a
      | some b => some (16 * a + b)

/-- The three channel parses `parseInt(color.slice(1,3),16)`, `slice(3,5)`, `slice(5,7)`
performed by `findClosestColor` on a palette entry. -/
def parseColor (c : List Char) : Option ℕ × Option ℕ × Option ℕ :=
  (parseHex2 ((c.drop 1).take 2), parseHex2 ((c.drop 3).take 2), parseHex2 ((c.drop 5).take 2))

/-- Squared Euclidean RGB distance.  The source compares
`Math.sqrt((r-pr)^2 + (g-pg)^2 + (b-pb)^2)` values; for 8-bit channels the sums of squares
are integers up to 3·255² = 195075, whose correctly rounded double square roots are
strictly monotone in the integer (distinct integers in this range differ by far more than
one ulp of their square roots), so the source's `<` comparison of float square roots
decides exactly as `<` on these integer squared distances. -/
def distSq (r g b pr pg pb : ℤ) : ℤ := (r - pr) ^ 2 + (g - pg) ^ 2 + (b - pb) ^ 2

/-- `d < m` where `m` is the running `minDistance`, with `none` standing for the initial
`Infinity`.  A `NaN` distance (unparseable entry) never reaches this comparison — the
`fccStep` catch-all skips it, matching `NaN < m` being false. -/
def ltInf (d : ℤ) : Option ℤ → Bool
  | none => true
  | some m => decide (d < m)

/-- One iteration of the `for (const color of palette)` loop of `findClosestColor`:
parse the entry, compute its distance and take it as the new `closest` exactly when the
distance is strictly below the running minimum (ties keep the earlier entry). -/
def fccStep (r g b : ℤ) (acc : Option ℤ × (ℤ × ℤ × ℤ)) (c : List Char) :
    Option ℤ × (ℤ × ℤ × ℤ) :=
  match parseColor c with
  | (some pr, some pg, some pb) =>
    let d := distSq r g b (pr : ℤ) (pg : ℤ) (pb : ℤ)
    if ltInf d acc.1 then (some d, ((pr : ℤ), (pg : ℤ), (pb : ℤ))) else acc
  | _ => acc

/-- `findClosestColor` (floydSteinberg.ts lines 11–33): scan the palette keeping the first
entry of minimal distance, starting from `minDistance = Infinity`, `closest = [0,0,0]`. -/
def findClosestColor (r g b : ℤ) (palette : List (List Char)) : ℤ × ℤ × ℤ :=
  (palette.foldl (fccStep r g b) (none, (0, 0, 0))).2

/-- The default black palette entry, `"#000000"`. -/
def colorBlack : List Char := ['#', '0', '0', '0', '0', '0', '0']

/-- The default white palette entry, `"#FFFFFF"`. -/
def colorWhite : List Char := ['#', 'F', 'F', 'F', 'F', 'F', 'F']

/-- The default palette `['#000000', '#FFFFFF']` (types.ts `DEFAULT_PALETTE`). -/
def palette01 : List (List Char) := [colorBlack, colorWhite]

/-! ### ImageData and the Levels transform (`levels.ts`) -/

/-- Model of an `ImageData`: width, height and the flat RGBA byte array. -/
structure ImageDataL where
  width : ℕ
  height : ℕ
  data : List ℕ
deriving DecidableEq

/-- `LevelsSettings` (types.ts): black point, mid point (gamma), white point. -/
structure LevelsSettings where
  blackPoint : ℤ
  midPoint : ℚ
  whitePoint : ℤ

/-- `applyLevels` (levels.ts lines 11–30), parameterised by the `Math.pow` model:
clip at the black and white points, otherwise normalise, apply the inverse-gamma power and
rescale with `Math.round`. -/
def applyLevels (pow : ℚ → ℚ → ℚ) (value blackPoint : ℤ) (midPoint : ℚ) (whitePoint : ℤ) :
    ℤ :=
  if value ≤ blackPoint then 0
  else if value ≥ whitePoint then 255
  else
    let normalized : ℚ := ((value : ℚ) - (blackPoint : ℚ)) / ((whitePoint : ℚ) - (blackPoint : ℚ))
    let gamma := midPoint
    let adjusted := pow normalized (1 / gamma)
    jsRound (adjusted * 255)

/-- The `for (i += 4)` loop of `applyLevelsToImageData`: rewrite R, G, B of each pixel
through `applyLevels` (stored through the clamped-array conversion `toByte`), leave alpha
untouched.  Buffers entering the pipeline always have length `4 * width * height`
(the RGBA invariant), so the catch-all for ragged tails is never exercised. -/
def levelsLoop (pow : ℚ → ℚ → ℚ) (s : LevelsSettings) : List ℕ → List ℕ
  | r :: g :: b :: a :: rest =>
    toByte (applyLevels pow (r : ℤ) s.blackPoint s.midPoint s.whitePoint) ::
    toByte (applyLevels pow (g : ℤ) s.blackPoint s.midPoint s.whitePoint) ::
    toByte (applyLevels pow (b : ℤ) s.blackPoint s.midPoint s.whitePoint) ::
    a :: levelsLoop pow s rest
  | rest => rest

/-- `applyLevelsToImageData` (levels.ts lines 35–51).  The source mutates
`imageData.data` in place and returns the same `imageData` object; the embedding returns
the updated object, and a caller holding an alias of the argument (the raw-capture cache
in App.tsx) afterwards observes exactly this returned value. -/
def applyLevelsToImageData (pow : ℚ → ℚ → ℚ) (imageData : ImageDataL)
    (levels : LevelsSettings) : ImageDataL :=
  { imageData with data := levelsLoop pow levels imageData.data }

/-- The default levels `{blackPoint 0, midPoint 1.0, whitePoint 255}`
(types.ts `DEFAULT_LEVELS`). -/
def defaultLevels : LevelsSettings := ⟨0, 1, 255⟩

/-! ### Floyd–Steinberg dithering (`floydSteinberg.ts`) -/

/-- Linear byte index of channel 0 of pixel `(x, y)`: `(y * width + x) * 4`. -/
def pix (w y x : ℕ) : ℕ := (y * w + x) * 4

/-- One channel of an error-diffusion write:
`outputData[i] = Math.max(0, Math.min(255, outputData[i] + err * wgt / 16))`, the stored
value being `clampStore` of the exact double `outputData[i] + err * wgt / 16`, computed
here on the integer numerator of sixteenths (see `clampStore16`). -/
def diffuseChannel (buf : List ℕ) (i : ℕ) (e : ℤ) (wgt : ℕ) : List ℕ :=
  buf.set i (clampStore16 (16 * (buf.getD i 0 : ℤ) + e * (wgt : ℤ)))

/-- The three per-channel diffusion writes into the neighbour whose channel 0 lives at
`base`. -/
def diffuseNeighbor (buf : List ℕ) (base : ℕ) (eR eG eB : ℤ) (wgt : ℕ) : List ℕ :=
  diffuseChannel (diffuseChannel (diffuseChannel buf base eR wgt) (base + 1) eG wgt)
    (base + 2) eB wgt

/-- The body of the `for x` loop of `floydSteinberg` (lines 54–106): read the current
(possibly error-adjusted) RGB, quantise through `findClosestColor`, write the quantised
colour, and diffuse the signed error to the in-bounds neighbours with weights 7, 3, 5, 1
(over 16). -/
def ditherPixel (w h : ℕ) (palette : List (List Char)) (buf : List ℕ) (y x : ℕ) :
    List ℕ :=
  let idx := pix w y x
  let oldR : ℤ := (buf.getD idx 0 : ℤ)
  let oldG : ℤ := (buf.getD (idx + 1) 0 : ℤ)
  let oldB : ℤ := (buf.getD (idx + 2) 0 : ℤ)
  let c := findClosestColor oldR oldG oldB palette
  let buf1 := ((buf.set idx (toByte c.1)).set (idx + 1) (toByte c.2.1)).set (idx + 2)
    (toByte c.2.2)
  let errR := oldR - c.1
  let errG := oldG - c.2.1
  let errB := oldB - c.2.2
  let buf2 := if x + 1 < w then diffuseNeighbor buf1 (pix w y (x + 1)) errR errG errB 7
    else buf1
  let buf3 := if 0 < x ∧ y + 1 < h then
    diffuseNeighbor buf2 (pix w (y + 1) (x - 1)) errR errG errB 3 else buf2
  let buf4 := if y + 1 < h then diffuseNeighbor buf3 (pix w (y + 1) x) errR errG errB 5
    else buf3
  if x + 1 < w ∧ y + 1 < h then diffuseNeighbor buf4 (pix w (y + 1) (x + 1)) errR errG errB 1
  else buf4

/-- The initial copy of `floydSteinberg`: a fresh zero-filled clamped array of length `n`
(`createImageData`, imageDataHelper.ts) into which the input is copied index by index
(stores at indices `≥ n` are ignored by a typed array). -/
def copyInto (n : ℕ) (src : List ℕ) : List ℕ :=
  src.take n ++ List.replicate (n - src.length) 0

/-- The nested `for y` / `for x` raster scan of `floydSteinberg`. -/
def fsPass (w h : ℕ) (palette : List (List Char)) (buf : List ℕ) : List ℕ :=
  (List.range h).foldl
    (fun b y => (List.range w).foldl (fun b2 x => ditherPixel w h palette b2 y x) b) buf

/-- `floydSteinberg` (lines 41–110): allocate an output of the same dimensions, copy the
input into it, then run the raster-scan error-diffusion pass over the output buffer. -/
def floydSteinberg (imageData : ImageDataL) (palette : List (List Char)) : ImageDataL :=
  ⟨imageData.width, imageData.height,
    fsPass imageData.width imageData.height palette
      (copyInto (imageData.width * imageData.height * 4) imageData.data)⟩

/-- Heap view of the `floydSteinberg` call: the pair (input object after the call,
returned output object).  After the initial copy every assignment in the source targets
`outputData`; the input's backing array is only ever read, so the input component is
passed through untouched. -/
def floydSteinbergHeap (imageData : ImageDataL) (palette : List (List Char)) :
    ImageDataL × ImageDataL :=
  (imageData, floydSteinberg imageData palette)

/-- The row-major pixel visiting order `(y, x)` for `y < h`, each row left to right —
the claim-side description of the raster scan, used to state the order property. -/
def rowMajor (w h : ℕ) : List (ℕ × ℕ) :=
  (List.range h).flatMap (fun y => (List.range w).map (fun x => (y, x)))

/-! ### The `processImage` pipeline and the raw-capture cache (`App.tsx`) -/

/-- The two synchronous pixel stages of `processImage` (App.tsx lines 92–101):
`applyLevelsToImageData` on the raw buffer, then `floydSteinberg` on the result. -/
def processStages (pow : ℚ → ℚ → ℚ) (raw : ImageDataL) (levels : LevelsSettings)
    (palette : List (List Char)) : ImageDataL :=
  floydSteinberg (applyLevelsToImageData pow raw levels) palette

/-- `processImage(true)` with a warm cache (App.tsx lines 79–101): `rawImageData` is the
cached object itself (`cachedRawImageRef.current`), `applyLevelsToImageData` mutates it in
place, and `floydSteinberg` runs on the result.  The first component is the value the
cache holds after the run (the in-place-leveled buffer); the second is the dithered
output handed to the preview. -/
def processImageCached (pow : ℚ → ℚ → ℚ) (cache : ImageDataL) (levels : LevelsSettings)
    (palette : List (List Char)) : ImageDataL × ImageDataL :=
  let rawImageData := cache
  let leveled := applyLevelsToImageData pow rawImageData levels
  (leveled, floydSteinberg leveled palette)

/-! ### The debounced reprocessing triggers and the cache state machine (`App.tsx`) -/

/-- Source of the raw pixels used by a `processImage` run: a fresh Photoshop capture at a
given processing scale, or the single-slot cache, tagged with the scale it was captured
at. -/
inductive UsedSource where
  | fresh (scale : ℕ)
  | cached (capturedAt : ℕ)
deriving DecidableEq

/-- Orchestrator state of App.tsx: the single-slot cache `cachedRawImageRef` (tagged with
the scale its buffer was captured at, `none` when cleared), the current
`processingScale`, and whether each of the two debounce timers (the
`[algorithm, levels, palette]` effect and the `[processingScale]` effect) is pending.
`livePreview` is `true` throughout (the state initialises it to `true` and no handler
ever changes it). -/
structure OrchState where
  cache : Option ℕ
  scale : ℕ
  pendingSettings : Bool
  pendingScale : Bool
deriving DecidableEq

/-- User-visible events and timer expirations of App.tsx.  `scaleChange` re-runs the
`[processingScale]` effect (its cleanup cancels the previous pending timer, its body
schedules a new 500 ms timer when the cache is warm); `settingsChange` does the same for
the 300 ms `[algorithm, levels, palette]` effect; `scaleTimerFire` runs
`cachedRawImageRef.current = null; processImage(false)`; `settingsTimerFire` runs
`processImage(true)`; `processClick` runs `processImage(false)` directly.  Any
interleaving of the two independent timers is realisable by spacing the user events
(e.g. a settings change 100 ms after a scale change fires its 300 ms timer at 400 ms,
before the scale timer at 500 ms). -/
inductive OrchEvent where
  | scaleChange (s : ℕ)
  | settingsChange
  | settingsTimerFire
  | scaleTimerFire
  | processClick

/-- One transition of the orchestrator.  Captures are assumed to succeed (the claim's
scenario has successful captures); `processImage(false)` replaces the cache with the new
buffer captured at the current scale, `processImage(true)` uses the cached buffer when one
is present and otherwise falls back to a fresh capture.  The emitted value records which
source buffer the reprocess read. -/
def orchStep (st : OrchState) : OrchEvent → OrchState × Option UsedSource
  | .scaleChange s => ({ st with scale := s, pendingScale := st.cache.isSome }, none)
  | .settingsChange => ({ st with pendingSettings := st.cache.isSome }, none)
  | .settingsTimerFire =>
    if st.pendingSettings then
      match st.cache with
      | some t => ({ st with pendingSettings := false }, some (.cached t))
      | none =>
        ({ st with pendingSettings := false, cache := some st.scale },
          some (.fresh st.scale))
    else (st, none)
  | .scaleTimerFire =>
    if st.pendingScale then
      ({ st with pendingScale := false, cache := some st.scale }, some (.fresh st.scale))
    else (st, none)
  | .processClick => ({ st with cache := some st.scale }, some (.fresh st.scale))

/-- Run a sequence of events, collecting which source each reprocess used, in order. -/
def orchRun (st : OrchState) : List OrchEvent → OrchState × List UsedSource
  | [] => (st, [])
  | e :: es =>
    let su := orchStep st e
    let rest := orchRun su.1 es
    (rest.1, su.2.toList ++ rest.2)

/-- The initial orchestrator state: no cache, `processingScale` 10, no pending timers. -/
def orchInit : OrchState := ⟨none, 10, false, false⟩

/-! ### Preview geometry (`displayCalculator.ts`) -/

/-- A width/height pair (types.ts `Size`). -/
structure SizeL where
  width : ℤ
  height : ℤ
deriving DecidableEq

/-- Border colours of the preview feedback signal (types.ts `BorderColor`):
green = pixel-perfect, red = downscaled, blue = upscaled. -/
inductive BorderColor where
  | green
  | red
  | blue
deriving DecidableEq

/-- `calculateProcessedSize` (displayCalculator.ts): `scale = processingScale / 100` and
each dimension `Math.round(dim * scale)`, with the division and products evaluated in
binary64 (`roundDouble`); the integer dimensions and percentages are themselves exactly
representable. -/
def calculateProcessedSize (docSize : SizeL) (processingScale : ℤ) : SizeL :=
  let scale : ℚ := roundDouble ((processingScale : ℚ) / 100)
  { width := jsRound (roundDouble ((docSize.width : ℚ) * scale)),
    height := jsRound (roundDouble ((docSize.height : ℚ) * scale)) }

/-- `calculateCanvasSize` (displayCalculator.ts): `zoom = displayZoom / 100` and each
dimension `Math.round(dim * zoom)`, evaluated in binary64 as above. -/
def calculateCanvasSize (processedSize : SizeL) (displayZoom : ℤ) : SizeL :=
  let zoom : ℚ := roundDouble ((displayZoom : ℚ) / 100)
  { width := jsRound (roundDouble ((processedSize.width : ℚ) * zoom)),
    height := jsRound (roundDouble ((processedSize.height : ℚ) * zoom)) }

/-- `getBorderColor` (displayCalculator.ts): green at exactly 100 %, red below, blue
above. -/
def getBorderColor (displayZoom : ℤ) : BorderColor :=
  if displayZoom = 100 then .green else if displayZoom < 100 then .red else .blue

/-- The processed-size formula as C10 words it: each dimension is
`round(dimension * scale / 100)` in exact arithmetic (no double rounding).  Second,
claim-side definition, to be compared against `calculateProcessedSize`. -/
def processedSizeSpec (docSize : SizeL) (processingScale : ℤ) : SizeL :=
  { width := jsRound ((docSize.width : ℚ) * (processingScale : ℚ) / 100),
    height := jsRound ((docSize.height : ℚ) * (processingScale : ℚ) / 100) }


/-- Readability abbreviation: the quantised colour chosen in step 3 of the loop body for
the pixel whose channel 0 lives at `idx`. -/
def quantizedAt (pal : List (List Char)) (buf : List ℕ) (idx : ℕ) : ℤ × ℤ × ℤ :=
  findClosestColor (buf.getD idx 0 : ℤ) (buf.getD (idx + 1) 0 : ℤ)
    (buf.getD (idx + 2) 0 : ℤ) pal

/-- Readability abbreviation: the signed per-channel quantisation error of step 4
(`old − new`). -/
def errAt (pal : List (List Char)) (buf : List ℕ) (idx : ℕ) : ℤ × ℤ × ℤ :=
  ((buf.getD idx 0 : ℤ) - (quantizedAt pal buf idx).1,
   (buf.getD (idx + 1) 0 : ℤ) - (quantizedAt pal buf idx).2.1,
   (buf.getD (idx + 2) 0 : ℤ) - (quantizedAt pal buf idx).2.2)

/-- The parsed RGB triple of a palette entry, `none` when any channel slice fails to
parse (the `NaN` case). -/
def parsedRGB (c : List Char) : Option (ℤ × ℤ × ℤ) :=
  match parseColor c with
  | (some pr, some pg, some pb) => some ((pr : ℤ), (pg : ℤ), (pb : ℤ))
  | _ => none

/-- The spec's end-to-end scenario source: a 4×4 buffer whose every pixel is
(128, 128, 128, 255). -/
def gray4 : ImageDataL := ⟨4, 4, (List.replicate 16 [128, 128, 128, 255]).flatten⟩

/-! ### Basic buffer lemmas -/

theorem getD_set_self (l : List ℕ) (i : ℕ) (v : ℕ) (h : i < l.length) :
    (l.set i v).getD i 0 = v := by
  simp [List.getD_eq_getElem?_getD, List.getElem?_set_self h]

theorem getD_set_ne (l : List ℕ) {i j : ℕ} (v : ℕ) (h : i ≠ j) :
    (l.set i v).getD j 0 = l.getD j 0 := by
  simp [List.getD_eq_getElem?_getD, List.getElem?_set_ne h]

theorem clampStore16_eq (v : ℤ) : clampStore16 v = clampStore ((v : ℚ) / 16) := by
  have h16 : (0 : ℚ) ≤ 16 := by norm_num
  have hmin : min (255 : ℚ) ((v : ℚ) / 16) = ((min 4080 v : ℤ) : ℚ) / 16 := by
    rw [Int.cast_min, ← min_div_div_right h16]
    norm_num
  have hmax : max (0 : ℚ) (((min 4080 v : ℤ) : ℚ) / 16)
      = ((max 0 (min 4080 v) : ℤ) : ℚ) / 16 := by
    rw [Int.cast_max, ← max_div_div_right h16]
    norm_num
  set u : ℤ := max 0 (min 4080 v) with hu
  have hfloor : ⌊(u : ℚ) / 16⌋ = u / 16 := by
    have h := Rat.floor_intCast_div_natCast u 16
    simpa using h
  have hsplit : ((u : ℚ)) = 16 * ((u / 16 : ℤ) : ℚ) + ((u % 16 : ℤ) : ℚ) := by
    exact_mod_cast congrArg (fun t : ℤ => (t : ℚ)) (Int.ediv_add_emod u 16).symm
  have hfrac : (u : ℚ) / 16 - ((u / 16 : ℤ) : ℚ) = ((u % 16 : ℤ) : ℚ) / 16 := by
    field_simp
    linarith
  have c1 : ((u % 16 : ℤ) : ℚ) / 16 < 1 / 2 ↔ u % 16 < 8 := by
    rw [div_lt_div_iff₀ (by norm_num) (by norm_num)]
    norm_num
    constructor
    · intro h
      have h2 : u % 16 * 2 < 16 := by exact_mod_cast h
      omega
    · intro h
      have h2 : u % 16 * 2 < 16 := by omega
      exact_mod_cast h2
  have c2 : (1 / 2 : ℚ) < ((u % 16 : ℤ) : ℚ) / 16 ↔ 8 < u % 16 := by
    rw [div_lt_div_iff₀ (by norm_num) (by norm_num)]
    norm_num
    constructor
    · intro h
      have h2 : 16 < u % 16 * 2 := by exact_mod_cast h
      omega
    · intro h
      have h2 : 16 < u % 16 * 2 := by omega
      exact_mod_cast h2
  simp only [clampStore, clampStore16, halfEvenRound, ← hu, hmin, hmax, hfloor, hfrac]
  by_cases h1 : u % 16 < 8
  · rw [if_pos (c1.mpr h1), if_pos h1]
  · rw [if_neg (c1.not.mpr h1), if_neg h1]
    by_cases h2 : 8 < u % 16
    · rw [if_pos (c2.mpr h2), if_pos h2]
    · rw [if_neg (c2.not.mpr h2), if_neg h2]

/-! ### Dithering step lemmas: lengths, frames, written values -/

theorem pix_mod4 (w y x : ℕ) : pix w y x % 4 = 0 := Nat.mul_mod_left _ 4

theorem pix_right (w y x : ℕ) : pix w y (x + 1) = pix w y x + 4 := by
  simp only [pix]
  ring

theorem pix_bottom (w y x : ℕ) : pix w (y + 1) x = pix w y x + 4 * w := by
  simp only [pix, Nat.succ_mul]
  ring

theorem pix_bottom_right (w y x : ℕ) : pix w (y + 1) (x + 1) = pix w y x + 4 * w + 4 := by
  simp only [pix, Nat.succ_mul]
  ring

theorem pix_bottom_left (w y x : ℕ) (hx : 0 < x) :
    pix w (y + 1) (x - 1) = pix w y x + 4 * w - 4 := by
  simp only [pix, Nat.succ_mul]
  omega

theorem pix_lt (w h y x : ℕ) (hy : y < h) (hx : x < w) : pix w y x + 3 < 4 * (w * h) := by
  have h1 : y * w + x < w * h := by
    calc y * w + x < y * w + w := by omega
    _ = (y + 1) * w := by ring
    _ ≤ h * w := Nat.mul_le_mul_right w hy
    _ = w * h := Nat.mul_comm h w
  simp only [pix]
  omega

theorem length_diffuseChannel (buf : List ℕ) (i : ℕ) (e : ℤ) (wgt : ℕ) :
    (diffuseChannel buf i e wgt).length = buf.length := by
  simp [diffuseChannel]

theorem length_diffuseNeighbor (buf : List ℕ) (base : ℕ) (eR eG eB : ℤ) (wgt : ℕ) :
    (diffuseNeighbor buf base eR eG eB wgt).length = buf.length := by
  simp [diffuseNeighbor, length_diffuseChannel]

theorem length_ditherPixel (w h : ℕ) (pal : List (List Char)) (buf : List ℕ) (y x : ℕ) :
    (ditherPixel w h pal buf y x).length = buf.length := by
  simp only [ditherPixel]
  split_ifs <;> simp [length_diffuseNeighbor]

theorem getD_diffuseChannel_ne (buf : List ℕ) {i j : ℕ} (e : ℤ) (wgt : ℕ) (h : i ≠ j) :
    (diffuseChannel buf i e wgt).getD j 0 = buf.getD j 0 := by
  simp only [diffuseChannel]
  exact getD_set_ne _ _ h

theorem getD_diffuseNeighbor_ne (buf : List ℕ) {base j : ℕ} (eR eG eB : ℤ) (wgt : ℕ)
    (h0 : base ≠ j) (h1 : base + 1 ≠ j) (h2 : base + 2 ≠ j) :
    (diffuseNeighbor buf base eR eG eB wgt).getD j 0 = buf.getD j 0 := by
  simp only [diffuseNeighbor]
  rw [getD_diffuseChannel_ne _ _ _ h2, getD_diffuseChannel_ne _ _ _ h1,
    getD_diffuseChannel_ne _ _ _ h0]

/-- The value written by one `diffuseChannel` call at its own index. -/
theorem getD_diffuseChannel_self (buf : List ℕ) (i : ℕ) (e : ℤ) (wgt : ℕ)
    (h : i < buf.length) :
    (diffuseChannel buf i e wgt).getD i 0
      = clampStore16 (16 * (buf.getD i 0 : ℤ) + e * (wgt : ℤ)) := by
  simp only [diffuseChannel]
  exact getD_set_self _ _ _ h

/-- The three values written by one `diffuseNeighbor` call, in terms of the buffer it was
given. -/
theorem getD_diffuseNeighbor_self (buf : List ℕ) (base : ℕ) (eR eG eB : ℤ) (wgt : ℕ)
    (hlen : base + 2 < buf.length) :
    (diffuseNeighbor buf base eR eG eB wgt).getD base 0
        = clampStore16 (16 * (buf.getD base 0 : ℤ) + eR * (wgt : ℤ)) ∧
    (diffuseNeighbor buf base eR eG eB wgt).getD (base + 1) 0
        = clampStore16 (16 * (buf.getD (base + 1) 0 : ℤ) + eG * (wgt : ℤ)) ∧
    (diffuseNeighbor buf base eR eG eB wgt).getD (base + 2) 0
        = clampStore16 (16 * (buf.getD (base + 2) 0 : ℤ) + eB * (wgt : ℤ)) := by
  have l1 : (diffuseChannel buf base eR wgt).length = buf.length := length_diffuseChannel ..
  have l2 : (diffuseChannel (diffuseChannel buf base eR wgt) (base + 1) eG wgt).length
      = buf.length := by rw [length_diffuseChannel, l1]
  refine ⟨?_, ?_, ?_⟩
  · simp only [diffuseNeighbor]
    rw [getD_diffuseChannel_ne _ _ _ (by omega), getD_diffuseChannel_ne _ _ _ (by omega)]
    exact getD_diffuseChannel_self _ _ _ _ (by omega)
  · simp only [diffuseNeighbor]
    rw [getD_diffuseChannel_ne _ _ _ (by omega)]
    rw [getD_diffuseChannel_self _ _ _ _ (by omega)]
    rw [getD_diffuseChannel_ne _ _ _ (by omega)]
  · simp only [diffuseNeighbor]
    rw [getD_diffuseChannel_self _ _ _ _ (by omega)]
    rw [getD_diffuseChannel_ne _ _ _ (by omega), getD_diffuseChannel_ne _ _ _ (by omega)]

theorem pix_le_bottom_left (w y x : ℕ) (hw : 0 < w) :
    pix w y x ≤ pix w (y + 1) (x - 1) := by
  simp only [pix, Nat.succ_mul]
  omega

/-- Frame property of one dithering step: indices below the pixel's own base, and all
alpha bytes, are untouched. -/
theorem ditherPixel_frame (w h : ℕ) (pal : List (List Char)) (buf : List ℕ) (y x j : ℕ)
    (hw : 0 < w) (hj : j < pix w y x ∨ j % 4 = 3) :
    (ditherPixel w h pal buf y x).getD j 0 = buf.getD j 0 := by
  have hstep : ∀ (P : Prop) (inst : Decidable P) (l : List ℕ) (base : ℕ)
      (eR eG eB : ℤ) (wgt : ℕ), pix w y x ≤ base → base % 4 = 0 →
      (if P then diffuseNeighbor l base eR eG eB wgt else l).getD j 0 = l.getD j 0 := by
    intro P inst l base eR eG eB wgt hge hm
    split_ifs with hP
    · refine getD_diffuseNeighbor_ne _ _ _ _ _ ?_ ?_ ?_ <;>
        (rcases hj with hj | hj <;> omega)
    · rfl
  have hm0 := pix_mod4 w y x
  simp only [ditherPixel]
  rw [hstep (x + 1 < w ∧ y + 1 < h) inferInstance _ (pix w (y + 1) (x + 1)) _ _ _ 1
      (by rw [pix_bottom_right]; omega) (pix_mod4 ..)]
  rw [hstep (y + 1 < h) inferInstance _ (pix w (y + 1) x) _ _ _ 5
      (by rw [pix_bottom]; omega) (pix_mod4 ..)]
  rw [hstep (0 < x ∧ y + 1 < h) inferInstance _ (pix w (y + 1) (x - 1)) _ _ _ 3
      (pix_le_bottom_left w y x hw) (pix_mod4 ..)]
  rw [hstep (x + 1 < w) inferInstance _ (pix w y (x + 1)) _ _ _ 7
      (by rw [pix_right]; omega) (pix_mod4 ..)]
  rw [getD_set_ne _ _ (show pix w y x + 2 ≠ j by rcases hj with hj | hj <;> omega)]
  rw [getD_set_ne _ _ (show pix w y x + 1 ≠ j by rcases hj with hj | hj <;> omega)]
  rw [getD_set_ne _ _ (show pix w y x ≠ j by rcases hj with hj | hj <;> omega)]

theorem clampStore16_as_formula (a : ℕ) (e : ℤ) (wgt : ℕ) :
    clampStore16 (16 * (a : ℤ) + e * (wgt : ℤ))
      = clampStore ((a : ℚ) + (e : ℚ) * (wgt : ℚ) / 16) := by
  rw [clampStore16_eq]
  congr 1
  push_cast
  ring

/-- Step 3 of the loop body: after the step, the pixel's own channels hold the quantised
colour (every diffusion write lands strictly beyond them). -/
theorem ditherPixel_quantize (w h : ℕ) (pal : List (List Char)) (buf : List ℕ) (y x : ℕ)
    (hlen : buf.length = 4 * (w * h)) (hy : y < h) (hx : x < w) :
    (ditherPixel w h pal buf y x).getD (pix w y x) 0
        = toByte (quantizedAt pal buf (pix w y x)).1 ∧
    (ditherPixel w h pal buf y x).getD (pix w y x + 1) 0
        = toByte (quantizedAt pal buf (pix w y x)).2.1 ∧
    (ditherPixel w h pal buf y x).getD (pix w y x + 2) 0
        = toByte (quantizedAt pal buf (pix w y x)).2.2 := by
  have hw : 0 < w := by omega
  have hrb := pix_right w y x
  have hbb := pix_bottom w y x
  have hbrb := pix_bottom_right w y x
  have hblb4 : pix w y x + 4 ≤ pix w (y + 1) (x - 1) := by
    simp only [pix, Nat.succ_mul]
    omega
  have hidxlt := pix_lt w h y x hy hx
  have strip : ∀ j : ℕ, pix w y x ≤ j → j < pix w y x + 4 →
      (ditherPixel w h pal buf y x).getD j 0 =
      (((buf.set (pix w y x)
            (toByte (findClosestColor (buf.getD (pix w y x) 0 : ℤ)
              (buf.getD (pix w y x + 1) 0 : ℤ) (buf.getD (pix w y x + 2) 0 : ℤ) pal).1)).set
          (pix w y x + 1)
            (toByte (findClosestColor (buf.getD (pix w y x) 0 : ℤ)
              (buf.getD (pix w y x + 1) 0 : ℤ) (buf.getD (pix w y x + 2) 0 : ℤ) pal).2.1)).set
        (pix w y x + 2)
          (toByte (findClosestColor (buf.getD (pix w y x) 0 : ℤ)
            (buf.getD (pix w y x + 1) 0 : ℤ) (buf.getD (pix w y x + 2) 0 : ℤ) pal).2.2)).getD
        j 0 := by
    intro j hj1 hj2
    have hstepNe : ∀ (P : Prop) (inst : Decidable P) (l : List ℕ) (base : ℕ)
        (eR eG eB : ℤ) (wgt : ℕ),
        (P → base ≠ j ∧ base + 1 ≠ j ∧ base + 2 ≠ j) →
        (if P then diffuseNeighbor l base eR eG eB wgt else l).getD j 0 = l.getD j 0 := by
      intro P inst l base eR eG eB wgt hne
      split_ifs with hP
      · obtain ⟨a, b, c⟩ := hne hP
        exact getD_diffuseNeighbor_ne _ _ _ _ _ a b c
      · rfl
    simp only [ditherPixel]
    rw [hstepNe _ _ _ (pix w (y + 1) (x + 1)) _ _ _ 1 (fun _ => by omega)]
    rw [hstepNe _ _ _ (pix w (y + 1) x) _ _ _ 5 (fun _ => by omega)]
    rw [hstepNe _ _ _ (pix w (y + 1) (x - 1)) _ _ _ 3 (fun _ => by omega)]
    rw [hstepNe _ _ _ (pix w y (x + 1)) _ _ _ 7 (fun _ => by omega)]
  refine ⟨?_, ?_, ?_⟩
  · rw [strip _ (le_refl _) (by omega)]
    rw [getD_set_ne _ _ (by omega), getD_set_ne _ _ (by omega)]
    rw [getD_set_self _ _ _ (by omega)]
    rfl
  · rw [strip _ (by omega) (by omega)]
    rw [getD_set_ne _ _ (by omega)]
    rw [getD_set_self _ _ _ (by simp only [List.length_set]; omega)]
    rfl
  · rw [strip _ (by omega) (by omega)]
    rw [getD_set_self _ _ _ (by simp only [List.length_set]; omega)]
    rfl

/-- Step 5, right neighbour `(x+1, y)` with weight 7/16: when it is in bounds, each of its
RGB channels after the step is the clamped, rounded sum of its previous value and the
corresponding error times 7/16. -/
theorem ditherPixel_right_value (w h : ℕ) (pal : List (List Char)) (buf : List ℕ)
    (y x : ℕ) (hlen : buf.length = 4 * (w * h)) (hy : y < h) (hxr : x + 1 < w) :
    (ditherPixel w h pal buf y x).getD (pix w y (x + 1)) 0
        = clampStore ((buf.getD (pix w y (x + 1)) 0 : ℚ)
            + ((errAt pal buf (pix w y x)).1 : ℚ) * 7 / 16) ∧
    (ditherPixel w h pal buf y x).getD (pix w y (x + 1) + 1) 0
        = clampStore ((buf.getD (pix w y (x + 1) + 1) 0 : ℚ)
            + ((errAt pal buf (pix w y x)).2.1 : ℚ) * 7 / 16) ∧
    (ditherPixel w h pal buf y x).getD (pix w y (x + 1) + 2) 0
        = clampStore ((buf.getD (pix w y (x + 1) + 2) 0 : ℚ)
            + ((errAt pal buf (pix w y x)).2.2 : ℚ) * 7 / 16) := by
  have hw : 0 < w := by omega
  have hrb := pix_right w y x
  have hbb := pix_bottom w y x
  have hbrb := pix_bottom_right w y x
  have hidxlt := pix_lt w h y x hy (by omega)
  have hrblt := pix_lt w h y (x + 1) hy hxr
  have hstepNe : ∀ (j : ℕ) (P : Prop) (inst : Decidable P) (l : List ℕ) (base : ℕ)
      (eR eG eB : ℤ) (wgt : ℕ),
      (P → base ≠ j ∧ base + 1 ≠ j ∧ base + 2 ≠ j) →
      (if P then diffuseNeighbor l base eR eG eB wgt else l).getD j 0 = l.getD j 0 := by
    intro j P inst l base eR eG eB wgt hne
    split_ifs with hP
    · obtain ⟨a, b, c⟩ := hne hP
      exact getD_diffuseNeighbor_ne _ _ _ _ _ a b c
    · rfl
  have main : ∀ c : ℕ, c < 3 →
      (ditherPixel w h pal buf y x).getD (pix w y (x + 1) + c) 0 =
      clampStore16 (16 * (buf.getD (pix w y (x + 1) + c) 0 : ℤ)
        + (if c = 0 then (errAt pal buf (pix w y x)).1
           else if c = 1 then (errAt pal buf (pix w y x)).2.1
           else (errAt pal buf (pix w y x)).2.2) * (7 : ℕ)) := by
    intro c hc
    simp only [ditherPixel]
    rw [hstepNe _ _ _ _ (pix w (y + 1) (x + 1)) _ _ _ 1 (fun _ => by omega)]
    rw [hstepNe _ _ _ _ (pix w (y + 1) x) _ _ _ 5 (fun _ => by omega)]
    rw [hstepNe _ _ _ _ (pix w (y + 1) (x - 1)) _ _ _ 3 (fun hP => by
      have hb := pix_bottom_left w y x hP.1
      omega)]
    rw [if_pos hxr]
    have hlen1 : pix w y (x + 1) + 2 <
        (((buf.set (pix w y x) (toByte (findClosestColor (buf.getD (pix w y x) 0 : ℤ)
            (buf.getD (pix w y x + 1) 0 : ℤ) (buf.getD (pix w y x + 2) 0 : ℤ) pal).1)).set
          (pix w y x + 1) (toByte (findClosestColor (buf.getD (pix w y x) 0 : ℤ)
            (buf.getD (pix w y x + 1) 0 : ℤ) (buf.getD (pix w y x + 2) 0 : ℤ) pal).2.1)).set
          (pix w y x + 2) (toByte (findClosestColor (buf.getD (pix w y x) 0 : ℤ)
            (buf.getD (pix w y x + 1) 0 : ℤ) (buf.getD (pix w y x + 2) 0 : ℤ) pal).2.2)).length := by
      simp only [List.length_set]
      omega
    have hsets : ∀ j : ℕ, pix w y x + 2 < j →
        ((((buf.set (pix w y x) (toByte (findClosestColor (buf.getD (pix w y x) 0 : ℤ)
            (buf.getD (pix w y x + 1) 0 : ℤ) (buf.getD (pix w y x + 2) 0 : ℤ) pal).1)).set
          (pix w y x + 1) (toByte (findClosestColor (buf.getD (pix w y x) 0 : ℤ)
            (buf.getD (pix w y x + 1) 0 : ℤ) (buf.getD (pix w y x + 2) 0 : ℤ) pal).2.1)).set
          (pix w y x + 2) (toByte (findClosestColor (buf.getD (pix w y x) 0 : ℤ)
            (buf.getD (pix w y x + 1) 0 : ℤ) (buf.getD (pix w y x + 2) 0 : ℤ) pal).2.2))).getD j 0
          = buf.getD j 0 := by
      intro j hj
      rw [getD_set_ne _ _ (by omega), getD_set_ne _ _ (by omega), getD_set_ne _ _ (by omega)]
    obtain ⟨e0, e1, e2⟩ := getD_diffuseNeighbor_self _ (pix w y (x + 1))
      ((buf.getD (pix w y x) 0 : ℤ) - (findClosestColor (buf.getD (pix w y x) 0 : ℤ)
        (buf.getD (pix w y x + 1) 0 : ℤ) (buf.getD (pix w y x + 2) 0 : ℤ) pal).1)
      ((buf.getD (pix w y x + 1) 0 : ℤ) - (findClosestColor (buf.getD (pix w y x) 0 : ℤ)
        (buf.getD (pix w y x + 1) 0 : ℤ) (buf.getD (pix w y x + 2) 0 : ℤ) pal).2.1)
      ((buf.getD (pix w y x + 2) 0 : ℤ) - (findClosestColor (buf.getD (pix w y x) 0 : ℤ)
        (buf.getD (pix w y x + 1) 0 : ℤ) (buf.getD (pix w y x + 2) 0 : ℤ) pal).2.2)
      7 hlen1
    interval_cases c
    · simp only [Nat.add_zero]
      rw [e0, hsets _ (by omega)]
      rfl
    · rw [e1, hsets _ (by omega)]
      rfl
    · rw [e2, hsets _ (by omega)]
      rfl
  refine ⟨?_, ?_, ?_⟩
  · have := main 0 (by omega)
    simp only [Nat.add_zero, reduceIte] at this
    rw [this, clampStore16_as_formula]
    norm_num
  · have := main 1 (by omega)
    simp only [reduceIte] at this
    rw [this, clampStore16_as_formula]
    norm_num
  · have := main 2 (by omega)
    simp only [reduceIte] at this
    rw [this, clampStore16_as_formula]
    norm_num

theorem length_ite_dn (P : Prop) [inst : Decidable P] (l : List ℕ) (base : ℕ)
    (eR eG eB : ℤ) (wgt : ℕ) :
    (if P then diffuseNeighbor l base eR eG eB wgt else l).length = l.length := by
  split_ifs with hP
  · exact length_diffuseNeighbor ..
  · rfl

/-- Step 5, bottom-left neighbour `(x-1, y+1)` with weight 3/16. -/
theorem ditherPixel_bottom_left_value (w h : ℕ) (pal : List (List Char)) (buf : List ℕ)
    (y x : ℕ) (hlen : buf.length = 4 * (w * h)) (hy : y < h) (hx : x < w)
    (hx0 : 0 < x) (hy1 : y + 1 < h) :
    (ditherPixel w h pal buf y x).getD (pix w (y + 1) (x - 1)) 0
        = clampStore ((buf.getD (pix w (y + 1) (x - 1)) 0 : ℚ)
            + ((errAt pal buf (pix w y x)).1 : ℚ) * 3 / 16) ∧
    (ditherPixel w h pal buf y x).getD (pix w (y + 1) (x - 1) + 1) 0
        = clampStore ((buf.getD (pix w (y + 1) (x - 1) + 1) 0 : ℚ)
            + ((errAt pal buf (pix w y x)).2.1 : ℚ) * 3 / 16) ∧
    (ditherPixel w h pal buf y x).getD (pix w (y + 1) (x - 1) + 2) 0
        = clampStore ((buf.getD (pix w (y + 1) (x - 1) + 2) 0 : ℚ)
            + ((errAt pal buf (pix w y x)).2.2 : ℚ) * 3 / 16) := by
  have hw : 0 < w := by omega
  have hrb := pix_right w y x
  have hbb := pix_bottom w y x
  have hbrb := pix_bottom_right w y x
  have hbl := pix_bottom_left w y x hx0
  have hidxlt := pix_lt w h y x hy hx
  have hbllt := pix_lt w h (y + 1) (x - 1) hy1 (by omega)
  have hstepNe : ∀ (j : ℕ) (P : Prop) (inst : Decidable P) (l : List ℕ) (base : ℕ)
      (eR eG eB : ℤ) (wgt : ℕ),
      (P → base ≠ j ∧ base + 1 ≠ j ∧ base + 2 ≠ j) →
      (if P then diffuseNeighbor l base eR eG eB wgt else l).getD j 0 = l.getD j 0 := by
    intro j P inst l base eR eG eB wgt hne
    split_ifs with hP
    · obtain ⟨a, b, c⟩ := hne hP
      exact getD_diffuseNeighbor_ne _ _ _ _ _ a b c
    · rfl
  have main : ∀ c : ℕ, c < 3 →
      (ditherPixel w h pal buf y x).getD (pix w (y + 1) (x - 1) + c) 0 =
      clampStore16 (16 * (buf.getD (pix w (y + 1) (x - 1) + c) 0 : ℤ)
        + (if c = 0 then (errAt pal buf (pix w y x)).1
           else if c = 1 then (errAt pal buf (pix w y x)).2.1
           else (errAt pal buf (pix w y x)).2.2) * (3 : ℕ)) := by
    intro c hc
    simp only [ditherPixel]
    rw [hstepNe _ _ _ _ (pix w (y + 1) (x + 1)) _ _ _ 1 (fun hP => by omega)]
    rw [hstepNe _ _ _ _ (pix w (y + 1) x) _ _ _ 5 (fun _ => by omega)]
    rw [if_pos (⟨hx0, hy1⟩ : 0 < x ∧ y + 1 < h)]
    have hlen2 : pix w (y + 1) (x - 1) + 2 <
        ((if x + 1 < w then
            diffuseNeighbor (((buf.set (pix w y x)
              (toByte (findClosestColor (buf.getD (pix w y x) 0 : ℤ)
                (buf.getD (pix w y x + 1) 0 : ℤ) (buf.getD (pix w y x + 2) 0 : ℤ) pal).1)).set
              (pix w y x + 1)
              (toByte (findClosestColor (buf.getD (pix w y x) 0 : ℤ)
                (buf.getD (pix w y x + 1) 0 : ℤ) (buf.getD (pix w y x + 2) 0 : ℤ) pal).2.1)).set
              (pix w y x + 2)
              (toByte (findClosestColor (buf.getD (pix w y x) 0 : ℤ)
                (buf.getD (pix w y x + 1) 0 : ℤ) (buf.getD (pix w y x + 2) 0 : ℤ) pal).2.2))
              (pix w y (x + 1))
              ((buf.getD (pix w y x) 0 : ℤ) - (findClosestColor (buf.getD (pix w y x) 0 : ℤ)
                (buf.getD (pix w y x + 1) 0 : ℤ) (buf.getD (pix w y x + 2) 0 : ℤ) pal).1)
              ((buf.getD (pix w y x + 1) 0 : ℤ) - (findClosestColor (buf.getD (pix w y x) 0 : ℤ)
                (buf.getD (pix w y x + 1) 0 : ℤ) (buf.getD (pix w y x + 2) 0 : ℤ) pal).2.1)
              ((buf.getD (pix w y x + 2) 0 : ℤ) - (findClosestColor (buf.getD (pix w y x) 0 : ℤ)
                (buf.getD (pix w y x + 1) 0 : ℤ) (buf.getD (pix w y x + 2) 0 : ℤ) pal).2.2)
              7
          else ((buf.set (pix w y x)
              (toByte (findClosestColor (buf.getD (pix w y x) 0 : ℤ)
                (buf.getD (pix w y x + 1) 0 : ℤ) (buf.getD (pix w y x + 2) 0 : ℤ) pal).1)).set
              (pix w y x + 1)
              (toByte (findClosestColor (buf.getD (pix w y x) 0 : ℤ)
                (buf.getD (pix w y x + 1) 0 : ℤ) (buf.getD (pix w y x + 2) 0 : ℤ) pal).2.1)).set
              (pix w y x + 2)
              (toByte (findClosestColor (buf.getD (pix w y x) 0 : ℤ)
                (buf.getD (pix w y x + 1) 0 : ℤ) (buf.getD (pix w y x + 2) 0 : ℤ) pal).2.2))).length := by
      rw [length_ite_dn]
      simp only [List.length_set]
      omega
    obtain ⟨e0, e1, e2⟩ := getD_diffuseNeighbor_self _ (pix w (y + 1) (x - 1))
      ((buf.getD (pix w y x) 0 : ℤ) - (findClosestColor (buf.getD (pix w y x) 0 : ℤ)
        (buf.getD (pix w y x + 1) 0 : ℤ) (buf.getD (pix w y x + 2) 0 : ℤ) pal).1)
      ((buf.getD (pix w y x + 1) 0 : ℤ) - (findClosestColor (buf.getD (pix w y x) 0 : ℤ)
        (buf.getD (pix w y x + 1) 0 : ℤ) (buf.getD (pix w y x + 2) 0 : ℤ) pal).2.1)
      ((buf.getD (pix w y x + 2) 0 : ℤ) - (findClosestColor (buf.getD (pix w y x) 0 : ℤ)
        (buf.getD (pix w y x + 1) 0 : ℤ) (buf.getD (pix w y x + 2) 0 : ℤ) pal).2.2)
      3 hlen2
    have hread : ∀ j : ℕ, pix w (y + 1) (x - 1) ≤ j → j < pix w (y + 1) (x - 1) + 3 →
        ((if x + 1 < w then
            diffuseNeighbor (((buf.set (pix w y x)
              (toByte (findClosestColor (buf.getD (pix w y x) 0 : ℤ)
                (buf.getD (pix w y x + 1) 0 : ℤ) (buf.getD (pix w y x + 2) 0 : ℤ) pal).1)).set
              (pix w y x + 1)
              (toByte (findClosestColor (buf.getD (pix w y x) 0 : ℤ)
                (buf.getD (pix w y x + 1) 0 : ℤ) (buf.getD (pix w y x + 2) 0 : ℤ) pal).2.1)).set
              (pix w y x + 2)
              (toByte (findClosestColor (buf.getD (pix w y x) 0 : ℤ)
                (buf.getD (pix w y x + 1) 0 : ℤ) (buf.getD (pix w y x + 2) 0 : ℤ) pal).2.2))
              (pix w y (x + 1))
              ((buf.getD (pix w y x) 0 : ℤ) - (findClosestColor (buf.getD (pix w y x) 0 : ℤ)
                (buf.getD (pix w y x + 1) 0 : ℤ) (buf.getD (pix w y x + 2) 0 : ℤ) pal).1)
              ((buf.getD (pix w y x + 1) 0 : ℤ) - (findClosestColor (buf.getD (pix w y x) 0 : ℤ)
                (buf.getD (pix w y x + 1) 0 : ℤ) (buf.getD (pix w y x + 2) 0 : ℤ) pal).2.1)
              ((buf.getD (pix w y x + 2) 0 : ℤ) - (findClosestColor (buf.getD (pix w y x) 0 : ℤ)
                (buf.getD (pix w y x + 1) 0 : ℤ) (buf.getD (pix w y x + 2) 0 : ℤ) pal).2.2)
              7
          else ((buf.set (pix w y x)
              (toByte (findClosestColor (buf.getD (pix w y x) 0 : ℤ)
                (buf.getD (pix w y x + 1) 0 : ℤ) (buf.getD (pix w y x + 2) 0 : ℤ) pal).1)).set
              (pix w y x + 1)
              (toByte (findClosestColor (buf.getD (pix w y x) 0 : ℤ)
                (buf.getD (pix w y x + 1) 0 : ℤ) (buf.getD (pix w y x + 2) 0 : ℤ) pal).2.1)).set
              (pix w y x + 2)
              (toByte (findClosestColor (buf.getD (pix w y x) 0 : ℤ)
                (buf.getD (pix w y x + 1) 0 : ℤ) (buf.getD (pix w y x + 2) 0 : ℤ) pal).2.2))).getD j 0
          = buf.getD j 0 := by
      intro j hj1 hj2
      rw [hstepNe _ _ _ _ (pix w y (x + 1)) _ _ _ 7 (fun hP => by omega)]
      rw [getD_set_ne _ _ (by omega), getD_set_ne _ _ (by omega), getD_set_ne _ _ (by omega)]
    interval_cases c
    · simp only [Nat.add_zero]
      rw [e0, hread _ (by omega) (by omega)]
      rfl
    · rw [e1, hread _ (by omega) (by omega)]
      rfl
    · rw [e2, hread _ (by omega) (by omega)]
      rfl
  refine ⟨?_, ?_, ?_⟩
  · have := main 0 (by omega)
    simp only [Nat.add_zero, reduceIte] at this
    rw [this, clampStore16_as_formula]
    norm_num
  · have := main 1 (by omega)
    simp only [reduceIte] at this
    rw [this, clampStore16_as_formula]
    norm_num
  · have := main 2 (by omega)
    simp only [reduceIte] at this
    rw [this, clampStore16_as_formula]
    norm_num

/-- Step 5, bottom neighbour `(x, y+1)` with weight 5/16. -/
theorem ditherPixel_bottom_value (w h : ℕ) (pal : List (List Char)) (buf : List ℕ)
    (y x : ℕ) (hlen : buf.length = 4 * (w * h)) (hy : y < h) (hx : x < w)
    (hy1 : y + 1 < h) :
    (ditherPixel w h pal buf y x).getD (pix w (y + 1) x) 0
        = clampStore ((buf.getD (pix w (y + 1) x) 0 : ℚ)
            + ((errAt pal buf (pix w y x)).1 : ℚ) * 5 / 16) ∧
    (ditherPixel w h pal buf y x).getD (pix w (y + 1) x + 1) 0
        = clampStore ((buf.getD (pix w (y + 1) x + 1) 0 : ℚ)
            + ((errAt pal buf (pix w y x)).2.1 : ℚ) * 5 / 16) ∧
    (ditherPixel w h pal buf y x).getD (pix w (y + 1) x + 2) 0
        = clampStore ((buf.getD (pix w (y + 1) x + 2) 0 : ℚ)
            + ((errAt pal buf (pix w y x)).2.2 : ℚ) * 5 / 16) := by
  have hw : 0 < w := by omega
  have hrb := pix_right w y x
  have hbb := pix_bottom w y x
  have hbrb := pix_bottom_right w y x
  have hidxlt := pix_lt w h y x hy hx
  have hbblt := pix_lt w h (y + 1) x hy1 hx
  have hstepNe : ∀ (j : ℕ) (P : Prop) (inst : Decidable P) (l : List ℕ) (base : ℕ)
      (eR eG eB : ℤ) (wgt : ℕ),
      (P → base ≠ j ∧ base + 1 ≠ j ∧ base + 2 ≠ j) →
      (if P then diffuseNeighbor l base eR eG eB wgt else l).getD j 0 = l.getD j 0 := by
    intro j P inst l base eR eG eB wgt hne
    split_ifs with hP
    · obtain ⟨a, b, c⟩ := hne hP
      exact getD_diffuseNeighbor_ne _ _ _ _ _ a b c
    · rfl
  have main : ∀ c : ℕ, c < 3 →
      (ditherPixel w h pal buf y x).getD (pix w (y + 1) x + c) 0 =
      clampStore16 (16 * (buf.getD (pix w (y + 1) x + c) 0 : ℤ)
        + (if c = 0 then (errAt pal buf (pix w y x)).1
           else if c = 1 then (errAt pal buf (pix w y x)).2.1
           else (errAt pal buf (pix w y x)).2.2) * (5 : ℕ)) := by
    intro c hc
    simp only [ditherPixel]
    generalize hq : findClosestColor (buf.getD (pix w y x) 0 : ℤ)
      (buf.getD (pix w y x + 1) 0 : ℤ) (buf.getD (pix w y x + 2) 0 : ℤ) pal = q
    generalize heR : (buf.getD (pix w y x) 0 : ℤ) - q.1 = eR
    generalize heG : (buf.getD (pix w y x + 1) 0 : ℤ) - q.2.1 = eG
    generalize heB : (buf.getD (pix w y x + 2) 0 : ℤ) - q.2.2 = eB
    generalize hB1 : ((buf.set (pix w y x) (toByte q.1)).set (pix w y x + 1)
      (toByte q.2.1)).set (pix w y x + 2) (toByte q.2.2) = B1
    have hlB1 : B1.length = buf.length := by
      rw [← hB1]
      simp only [List.length_set]
    have hrB1 : ∀ j : ℕ, pix w y x + 2 < j → B1.getD j 0 = buf.getD j 0 := by
      intro j hj
      rw [← hB1, getD_set_ne _ _ (by omega), getD_set_ne _ _ (by omega),
        getD_set_ne _ _ (by omega)]
    rw [hstepNe _ _ _ _ (pix w (y + 1) (x + 1)) _ _ _ 1 (fun _ => by omega)]
    rw [if_pos hy1]
    have hlB3 : (if 0 < x ∧ y + 1 < h then
        diffuseNeighbor (if x + 1 < w then
            diffuseNeighbor B1 (pix w y (x + 1)) eR eG eB 7 else B1)
          (pix w (y + 1) (x - 1)) eR eG eB 3
        else (if x + 1 < w then diffuseNeighbor B1 (pix w y (x + 1)) eR eG eB 7
          else B1)).length = buf.length := by
      rw [length_ite_dn, length_ite_dn, hlB1]
    obtain ⟨e0, e1, e2⟩ := getD_diffuseNeighbor_self
      (if 0 < x ∧ y + 1 < h then
        diffuseNeighbor (if x + 1 < w then
            diffuseNeighbor B1 (pix w y (x + 1)) eR eG eB 7 else B1)
          (pix w (y + 1) (x - 1)) eR eG eB 3
        else (if x + 1 < w then diffuseNeighbor B1 (pix w y (x + 1)) eR eG eB 7 else B1))
      (pix w (y + 1) x) eR eG eB 5 (by rw [hlB3]; omega)
    have hread : ∀ j : ℕ, pix w (y + 1) x ≤ j → j < pix w (y + 1) x + 3 →
        (if 0 < x ∧ y + 1 < h then
          diffuseNeighbor (if x + 1 < w then
              diffuseNeighbor B1 (pix w y (x + 1)) eR eG eB 7 else B1)
            (pix w (y + 1) (x - 1)) eR eG eB 3
          else (if x + 1 < w then diffuseNeighbor B1 (pix w y (x + 1)) eR eG eB 7
            else B1)).getD j 0 = buf.getD j 0 := by
      intro j hj1 hj2
      rw [hstepNe _ _ _ _ (pix w (y + 1) (x - 1)) _ _ _ 3 (fun hP => by
        have hb := pix_bottom_left w y x hP.1
        omega)]
      rw [hstepNe _ _ _ _ (pix w y (x + 1)) _ _ _ 7 (fun hP => by omega)]
      exact hrB1 _ (by omega)
    interval_cases c
    · simp only [Nat.add_zero]
      rw [e0, hread _ (by omega) (by omega)]
      simp only [errAt, quantizedAt, hq, heR, heG, heB]
      norm_num
    · rw [e1, hread _ (by omega) (by omega)]
      simp only [errAt, quantizedAt, hq, heR, heG, heB]
      norm_num
    · rw [e2, hread _ (by omega) (by omega)]
      simp only [errAt, quantizedAt, hq, heR, heG, heB]
      norm_num
  refine ⟨?_, ?_, ?_⟩
  · have := main 0 (by omega)
    simp only [Nat.add_zero, reduceIte] at this
    rw [this, clampStore16_as_formula]
    norm_num
  · have := main 1 (by omega)
    simp only [reduceIte] at this
    rw [this, clampStore16_as_formula]
    norm_num
  · have := main 2 (by omega)
    simp only [reduceIte] at this
    rw [this, clampStore16_as_formula]
    norm_num

/-- Step 5, bottom-right neighbour `(x+1, y+1)` with weight 1/16. -/
theorem ditherPixel_bottom_right_value (w h : ℕ) (pal : List (List Char)) (buf : List ℕ)
    (y x : ℕ) (hlen : buf.length = 4 * (w * h)) (hy : y < h) (hxr : x + 1 < w)
    (hy1 : y + 1 < h) :
    (ditherPixel w h pal buf y x).getD (pix w (y + 1) (x + 1)) 0
        = clampStore ((buf.getD (pix w (y + 1) (x + 1)) 0 : ℚ)
            + ((errAt pal buf (pix w y x)).1 : ℚ) * 1 / 16) ∧
    (ditherPixel w h pal buf y x).getD (pix w (y + 1) (x + 1) + 1) 0
        = clampStore ((buf.getD (pix w (y + 1) (x + 1) + 1) 0 : ℚ)
            + ((errAt pal buf (pix w y x)).2.1 : ℚ) * 1 / 16) ∧
    (ditherPixel w h pal buf y x).getD (pix w (y + 1) (x + 1) + 2) 0
        = clampStore ((buf.getD (pix w (y + 1) (x + 1) + 2) 0 : ℚ)
            + ((errAt pal buf (pix w y x)).2.2 : ℚ) * 1 / 16) := by
  have hw : 0 < w := by omega
  have hrb := pix_right w y x
  have hbb := pix_bottom w y x
  have hbrb := pix_bottom_right w y x
  have hidxlt := pix_lt w h y x hy (by omega)
  have hbrlt := pix_lt w h (y + 1) (x + 1) hy1 hxr
  have hstepNe : ∀ (j : ℕ) (P : Prop) (inst : Decidable P) (l : List ℕ) (base : ℕ)
      (eR eG eB : ℤ) (wgt : ℕ),
      (P → base ≠ j ∧ base + 1 ≠ j ∧ base + 2 ≠ j) →
      (if P then diffuseNeighbor l base eR eG eB wgt else l).getD j 0 = l.getD j 0 := by
    intro j P inst l base eR eG eB wgt hne
    split_ifs with hP
    · obtain ⟨a, b, c⟩ := hne hP
      exact getD_diffuseNeighbor_ne _ _ _ _ _ a b c
    · rfl
  have main : ∀ c : ℕ, c < 3 →
      (ditherPixel w h pal buf y x).getD (pix w (y + 1) (x + 1) + c) 0 =
      clampStore16 (16 * (buf.getD (pix w (y + 1) (x + 1) + c) 0 : ℤ)
        + (if c = 0 then (errAt pal buf (pix w y x)).1
           else if c = 1 then (errAt pal buf (pix w y x)).2.1
           else (errAt pal buf (pix w y x)).2.2) * (1 : ℕ)) := by
    intro c hc
    simp only [ditherPixel]
    generalize hq : findClosestColor (buf.getD (pix w y x) 0 : ℤ)
      (buf.getD (pix w y x + 1) 0 : ℤ) (buf.getD (pix w y x + 2) 0 : ℤ) pal = q
    generalize heR : (buf.getD (pix w y x) 0 : ℤ) - q.1 = eR
    generalize heG : (buf.getD (pix w y x + 1) 0 : ℤ) - q.2.1 = eG
    generalize heB : (buf.getD (pix w y x + 2) 0 : ℤ) - q.2.2 = eB
    generalize hB1 : ((buf.set (pix w y x) (toByte q.1)).set (pix w y x + 1)
      (toByte q.2.1)).set (pix w y x + 2) (toByte q.2.2) = B1
    have hlB1 : B1.length = buf.length := by
      rw [← hB1]
      simp only [List.length_set]
    have hrB1 : ∀ j : ℕ, pix w y x + 2 < j → B1.getD j 0 = buf.getD j 0 := by
      intro j hj
      rw [← hB1, getD_set_ne _ _ (by omega), getD_set_ne _ _ (by omega),
        getD_set_ne _ _ (by omega)]
    rw [if_pos (⟨hxr, hy1⟩ : x + 1 < w ∧ y + 1 < h)]
    have hlB4 : (if y + 1 < h then
        diffuseNeighbor (if 0 < x ∧ y + 1 < h then
            diffuseNeighbor (if x + 1 < w then
                diffuseNeighbor B1 (pix w y (x + 1)) eR eG eB 7 else B1)
              (pix w (y + 1) (x - 1)) eR eG eB 3
            else (if x + 1 < w then diffuseNeighbor B1 (pix w y (x + 1)) eR eG eB 7 else B1))
          (pix w (y + 1) x) eR eG eB 5
        else (if 0 < x ∧ y + 1 < h then
            diffuseNeighbor (if x + 1 < w then
                diffuseNeighbor B1 (pix w y (x + 1)) eR eG eB 7 else B1)
              (pix w (y + 1) (x - 1)) eR eG eB 3
            else (if x + 1 < w then diffuseNeighbor B1 (pix w y (x + 1)) eR eG eB 7
              else B1))).length = buf.length := by
      rw [length_ite_dn, length_ite_dn, length_ite_dn, hlB1]
    obtain ⟨e0, e1, e2⟩ := getD_diffuseNeighbor_self
      (if y + 1 < h then
        diffuseNeighbor (if 0 < x ∧ y + 1 < h then
            diffuseNeighbor (if x + 1 < w then
                diffuseNeighbor B1 (pix w y (x + 1)) eR eG eB 7 else B1)
              (pix w (y + 1) (x - 1)) eR eG eB 3
            else (if x + 1 < w then diffuseNeighbor B1 (pix w y (x + 1)) eR eG eB 7 else B1))
          (pix w (y + 1) x) eR eG eB 5
        else (if 0 < x ∧ y + 1 < h then
            diffuseNeighbor (if x + 1 < w then
                diffuseNeighbor B1 (pix w y (x + 1)) eR eG eB 7 else B1)
              (pix w (y + 1) (x - 1)) eR eG eB 3
            else (if x + 1 < w then diffuseNeighbor B1 (pix w y (x + 1)) eR eG eB 7
              else B1)))
      (pix w (y + 1) (x + 1)) eR eG eB 1 (by rw [hlB4]; omega)
    have hread : ∀ j : ℕ, pix w (y + 1) (x + 1) ≤ j → j < pix w (y + 1) (x + 1) + 3 →
        (if y + 1 < h then
          diffuseNeighbor (if 0 < x ∧ y + 1 < h then
              diffuseNeighbor (if x + 1 < w then
                  diffuseNeighbor B1 (pix w y (x + 1)) eR eG eB 7 else B1)
                (pix w (y + 1) (x - 1)) eR eG eB 3
              else (if x + 1 < w then diffuseNeighbor B1 (pix w y (x + 1)) eR eG eB 7 else B1))
            (pix w (y + 1) x) eR eG eB 5
          else (if 0 < x ∧ y + 1 < h then
              diffuseNeighbor (if x + 1 < w then
                  diffuseNeighbor B1 (pix w y (x + 1)) eR eG eB 7 else B1)
                (pix w (y + 1) (x - 1)) eR eG eB 3
              else (if x + 1 < w then diffuseNeighbor B1 (pix w y (x + 1)) eR eG eB 7
                else B1))).getD j 0 = buf.getD j 0 := by
      intro j hj1 hj2
      rw [hstepNe _ _ _ _ (pix w (y + 1) x) _ _ _ 5 (fun _ => by omega)]
      rw [hstepNe _ _ _ _ (pix w (y + 1) (x - 1)) _ _ _ 3 (fun hP => by
        have hb := pix_bottom_left w y x hP.1
        omega)]
      rw [hstepNe _ _ _ _ (pix w y (x + 1)) _ _ _ 7 (fun hP => by omega)]
      exact hrB1 _ (by omega)
    interval_cases c
    · simp only [Nat.add_zero]
      rw [e0, hread _ (by omega) (by omega)]
      simp only [errAt, quantizedAt, hq, heR, heG, heB]
      norm_num
    · rw [e1, hread _ (by omega) (by omega)]
      simp only [errAt, quantizedAt, hq, heR, heG, heB]
      norm_num
    · rw [e2, hread _ (by omega) (by omega)]
      simp only [errAt, quantizedAt, hq, heR, heG, heB]
      norm_num
  refine ⟨?_, ?_, ?_⟩
  · have := main 0 (by omega)
    simp only [Nat.add_zero, reduceIte] at this
    rw [this, clampStore16_as_formula]
    norm_num
  · have := main 1 (by omega)
    simp only [reduceIte] at this
    rw [this, clampStore16_as_formula]
    norm_num
  · have := main 2 (by omega)
    simp only [reduceIte] at this
    rw [this, clampStore16_as_formula]
    norm_num

/-- Indices outside the pixel's own channels and the active neighbours' channels are
untouched by one dithering step. -/
theorem ditherPixel_untouched (w h : ℕ) (pal : List (List Char)) (buf : List ℕ)
    (y x j : ℕ) (_hw : 0 < w)
    (h0 : ¬(pix w y x ≤ j ∧ j ≤ pix w y x + 2))
    (h1 : x + 1 < w → ¬(pix w y (x + 1) ≤ j ∧ j ≤ pix w y (x + 1) + 2))
    (h2 : 0 < x ∧ y + 1 < h → ¬(pix w (y + 1) (x - 1) ≤ j ∧ j ≤ pix w (y + 1) (x - 1) + 2))
    (h3 : y + 1 < h → ¬(pix w (y + 1) x ≤ j ∧ j ≤ pix w (y + 1) x + 2))
    (h4 : x + 1 < w ∧ y + 1 < h →
      ¬(pix w (y + 1) (x + 1) ≤ j ∧ j ≤ pix w (y + 1) (x + 1) + 2)) :
    (ditherPixel w h pal buf y x).getD j 0 = buf.getD j 0 := by
  have hstepNe : ∀ (P : Prop) (inst : Decidable P) (l : List ℕ) (base : ℕ)
      (eR eG eB : ℤ) (wgt : ℕ),
      (P → base ≠ j ∧ base + 1 ≠ j ∧ base + 2 ≠ j) →
      (if P then diffuseNeighbor l base eR eG eB wgt else l).getD j 0 = l.getD j 0 := by
    intro P inst l base eR eG eB wgt hne
    split_ifs with hP
    · obtain ⟨a, b, c⟩ := hne hP
      exact getD_diffuseNeighbor_ne _ _ _ _ _ a b c
    · rfl
  simp only [ditherPixel]
  rw [hstepNe _ _ _ (pix w (y + 1) (x + 1)) _ _ _ 1 (fun hP => by
    have := h4 hP
    omega)]
  rw [hstepNe _ _ _ (pix w (y + 1) x) _ _ _ 5 (fun hP => by
    have := h3 hP
    omega)]
  rw [hstepNe _ _ _ (pix w (y + 1) (x - 1)) _ _ _ 3 (fun hP => by
    have := h2 hP
    omega)]
  rw [hstepNe _ _ _ (pix w y (x + 1)) _ _ _ 7 (fun hP => by
    have := h1 hP
    omega)]
  rw [getD_set_ne _ _ (by omega), getD_set_ne _ _ (by omega), getD_set_ne _ _ (by omega)]

/-! ### The raster scan as a fold over the row-major pixel list -/

/-- A nested fold over `range h` and `range w` is the fold over the flattened row-major
index list. -/
theorem nested_foldl_eq_flatMap (w : ℕ) (f : List ℕ → ℕ → ℕ → List ℕ) :
    ∀ (h : ℕ) (buf : List ℕ),
    (List.range h).foldl (fun b y => (List.range w).foldl (fun b2 x => f b2 y x) b) buf =
      ((List.range h).flatMap (fun y => (List.range w).map (fun x => (y, x)))).foldl
        (fun b p => f b p.1 p.2) buf := by
  intro h
  induction h with
  | zero => intro buf; rfl
  | succ n ih =>
    intro buf
    simp only [List.range_succ, List.foldl_append, List.flatMap_append, List.flatMap_cons,
      List.flatMap_nil, List.append_nil]
    rw [ih, List.foldl_map]
    simp only [List.foldl_cons, List.foldl_nil]

/-- The nested `for y` / `for x` loops of `floydSteinberg` process exactly the row-major
pixel list, in order. -/
theorem fsPass_eq_rowMajor (w h : ℕ) (pal : List (List Char)) (buf : List ℕ) :
    fsPass w h pal buf =
      (rowMajor w h).foldl (fun b p => ditherPixel w h pal b p.1 p.2) buf :=
  nested_foldl_eq_flatMap w (fun b y x => ditherPixel w h pal b y x) h buf

theorem mem_rowMajor (w h : ℕ) (p : ℕ × ℕ) :
    p ∈ rowMajor w h ↔ p.1 < h ∧ p.2 < w := by
  cases p with
  | mk y x =>
    simp only [rowMajor, List.mem_flatMap, List.mem_map, List.mem_range]
    constructor
    · rintro ⟨a, ha, b, hb, hab⟩
      cases hab
      exact ⟨ha, hb⟩
    · rintro ⟨hy, hx⟩
      exact ⟨y, hy, x, hx, rfl⟩

/-- The row-major list is strictly sorted in the lexicographic order "top-to-bottom, then
left-to-right". -/
theorem rowMajor_pairwise (w h : ℕ) :
    (rowMajor w h).Pairwise (fun p q => p.1 < q.1 ∨ (p.1 = q.1 ∧ p.2 < q.2)) := by
  induction h with
  | zero => exact List.Pairwise.nil
  | succ n ih =>
    simp only [rowMajor, List.range_succ, List.flatMap_append, List.flatMap_cons,
      List.flatMap_nil, List.append_nil]
    rw [List.pairwise_append]
    refine ⟨ih, ?_, ?_⟩
    · exact List.Pairwise.map _ (fun a b hab => Or.inr ⟨rfl, hab⟩)
        (List.pairwise_lt_range w)
    · intro a ha b hb
      rw [← rowMajor] at ha
      have := (mem_rowMajor w n a).mp ha
      simp only [List.mem_map, List.mem_range] at hb
      obtain ⟨xb, hxb, rfl⟩ := hb
      exact Or.inl this.1

/-- Strict lexicographic order of in-range pixels gives strict order of their channel-0
byte indices. -/
theorem pix_lt_of_lex (w : ℕ) (p q : ℕ × ℕ) (hp : p.2 < w)
    (hlex : p.1 < q.1 ∨ (p.1 = q.1 ∧ p.2 < q.2)) : pix w p.1 p.2 + 3 < pix w q.1 q.2 + 3 := by
  rcases hlex with hlt | ⟨heq, hlt⟩
  · have h1 : p.1 * w + p.2 < q.1 * w + q.2 := by
      calc p.1 * w + p.2 < p.1 * w + w := by omega
      _ = (p.1 + 1) * w := by ring
      _ ≤ q.1 * w := Nat.mul_le_mul_right w hlt
      _ ≤ q.1 * w + q.2 := by omega
    simp only [pix]
    omega
  · have hmul : p.1 * w = q.1 * w := by rw [heq]
    simp only [pix]
    omega

/-- Folding dithering steps over pixels that all live at or beyond a given byte index
leaves everything strictly below that index, and every alpha byte, unchanged. -/
theorem foldl_dither_frame (w h : ℕ) (pal : List (List Char)) :
    ∀ (ps : List (ℕ × ℕ)) (b : List ℕ) (j : ℕ),
    (∀ p ∈ ps, p.2 < w ∧ (j < pix w p.1 p.2 ∨ j % 4 = 3)) →
    (ps.foldl (fun b p => ditherPixel w h pal b p.1 p.2) b).getD j 0 = b.getD j 0 := by
  intro ps
  induction ps with
  | nil => intro b j _; rfl
  | cons p rest ih =>
    intro b j hall
    have hp := hall p (List.mem_cons_self p rest)
    simp only [List.foldl_cons]
    rw [ih _ _ (fun q hq => hall q (List.mem_cons_of_mem p hq))]
    exact ditherPixel_frame w h pal b p.1 p.2 j (by omega) hp.2

theorem foldl_dither_length (w h : ℕ) (pal : List (List Char)) :
    ∀ (ps : List (ℕ × ℕ)) (b : List ℕ),
    (ps.foldl (fun b p => ditherPixel w h pal b p.1 p.2) b).length = b.length := by
  intro ps
  induction ps with
  | nil => intro b; rfl
  | cons p rest ih =>
    intro b
    simp only [List.foldl_cons]
    rw [ih, length_ditherPixel]

theorem length_copyInto (n : ℕ) (src : List ℕ) : (copyInto n src).length = n := by
  simp only [copyInto, List.length_append, List.length_take, List.length_replicate]
  omega

theorem copyInto_self (n : ℕ) (src : List ℕ) (h : src.length = n) : copyInto n src = src := by
  simp [copyInto, h, List.take_of_length_le (le_of_eq h)]

/-- Claim C6: for every value and every levels settings, `applyLevels` returns 0 whenever
`value ≤ blackPoint`; and (within the documented domain, where `blackPoint < whitePoint`)
it returns 255 whenever `value ≥ whitePoint`.  The result holds for any model of
`Math.pow`, since neither clamp branch reaches the tone curve. -/
theorem c6_levels_clamp (pow : ℚ → ℚ → ℚ) (v black : ℤ) (mid : ℚ) (white : ℤ) :
    (v ≤ black → applyLevels pow v black mid white = 0) ∧
    (black < white → white ≤ v → applyLevels pow v black mid white = 255) := by
  constructor
  · intro h
    simp [applyLevels, h]
  · intro hbw hwv
    have hnb : ¬ v ≤ black := by omega
    simp [applyLevels, hnb, ge_iff_le, hwv]

/-- Witness for C6 at concrete inputs. -/
theorem c6_levels_clamp_witness :
    applyLevels powAtOne 3 10 1 200 = 0 ∧ applyLevels powAtOne 250 10 1 200 = 255 :=
  ⟨(c6_levels_clamp powAtOne 3 10 1 200).1 (by norm_num),
   (c6_levels_clamp powAtOne 250 10 1 200).2 (by norm_num) (by norm_num)⟩

/-- Claim C7: `applyLevels` is total for all integer inputs.  The normalisation division
is reached only when `blackPoint < value < whitePoint` — outside that region the result
does not depend on the `Math.pow` model at all — and on that region the denominator
`whitePoint − blackPoint` is strictly positive; in the degenerate range
`whitePoint ≤ blackPoint` the black-point branch takes precedence and the function
returns 0 for `value ≤ blackPoint` and 255 otherwise. -/
theorem c7_levels_total (v black : ℤ) (mid : ℚ) (white : ℤ) :
    (∀ pow₁ pow₂ : ℚ → ℚ → ℚ, ¬(black < v ∧ v < white) →
      applyLevels pow₁ v black mid white = applyLevels pow₂ v black mid white) ∧
    (black < v → v < white → 0 < white - black) ∧
    (white ≤ black →
      ∀ pow : ℚ → ℚ → ℚ, applyLevels pow v black mid white = if v ≤ black then 0 else 255) := by
  refine ⟨?_, ?_, ?_⟩
  · intro pow₁ pow₂ h
    by_cases h1 : v ≤ black
    · simp [applyLevels, h1]
    · have h2 : white ≤ v := by omega
      simp [applyLevels, h1, ge_iff_le, h2]
  · intro h1 h2
    omega
  · intro hwb pow
    by_cases h1 : v ≤ black
    · simp [applyLevels, h1]
    · have h2 : white ≤ v := by omega
      simp [applyLevels, h1, ge_iff_le, h2]

/-- Witness for C7 at concrete inputs. -/
theorem c7_levels_total_witness :
    (applyLevels powAtOne 7 10 (1/2) 3 = applyLevels (fun x e => x + e) 7 10 (1/2) 3) ∧
    ((0 : ℤ) < 200 - 10) ∧
    (applyLevels powAtOne 5 10 1 3 = if (5 : ℤ) ≤ 10 then 0 else 255) :=
  ⟨(c7_levels_total 7 10 (1/2) 3).1 powAtOne (fun x e => x + e) (by norm_num),
   (c7_levels_total 20 10 1 200).2.1 (by norm_num) (by norm_num),
   (c7_levels_total 5 10 1 3).2.2 (by norm_num) powAtOne⟩

/-- Claim C1 (code bug): a cache-reusing `processImage(true)` run passes the cached
buffer itself to the in-place `applyLevelsToImageData`, so the Levels stage mutates the
cache's backing storage.  Concretely, with a captured 1×1 buffer (200, 200, 200, 255) and
levels `{blackPoint 0, midPoint 1, whitePoint 100}`, after one cached run the cache holds
(255, 255, 255, 255): the next cache-reusing run does not read the originally captured
raw pixels, contradicting the claim.  (The theorem holds for every model of `Math.pow`;
the mutated value comes from the white-point clamp branch.) -/
theorem c1_cache_backing_mutated (pow : ℚ → ℚ → ℚ) :
    (processImageCached pow ⟨1, 1, [200, 200, 200, 255]⟩ ⟨0, 1, 100⟩ palette01).1.data
      = [255, 255, 255, 255] ∧
    (processImageCached pow ⟨1, 1, [200, 200, 200, 255]⟩ ⟨0, 1, 100⟩ palette01).1.data
      ≠ [200, 200, 200, 255] := by
  have h : (processImageCached pow ⟨1, 1, [200, 200, 200, 255]⟩ ⟨0, 1, 100⟩ palette01).1.data
      = [255, 255, 255, 255] := by
    simp [processImageCached, applyLevelsToImageData, levelsLoop, applyLevels, toByte]
  exact ⟨h, by rw [h]; decide⟩

/-- Claim C9 (code bug): after a successful capture at scale 10, a ProcessingScale change
to 20 followed by a Levels/Palette/algorithm change makes the 300 ms settings-debounce
timer fire before the 500 ms scale-debounce timer (the only place the cache is cleared),
so the next reprocess runs `processImage(true)` against the buffer captured at scale 10
while `processingScale` is already 20 — the cache was not moved to NoCache before that
reprocess.  Timing realisability: scale change at t, settings change at t+100 ms, its
timer fires at t+400 ms < t+500 ms. -/
theorem c9_stale_cache_reprocess :
    (orchRun orchInit
      [.processClick, .scaleChange 20, .settingsChange, .settingsTimerFire]).2
      = [.fresh 10, .cached 10] ∧
    (orchRun orchInit
      [.processClick, .scaleChange 20, .settingsChange, .settingsTimerFire]).1.scale = 20 := by
  constructor <;> decide

/-- Claim C2 counterexample: with an empty palette the ditherer does not fail fast — it
processes every pixel and produces a quantised output buffer (all RGB driven to the
`findClosestColor` default (0,0,0), alpha preserved), because `findClosestColor` and
`floydSteinberg` contain no palette-emptiness check and no `InvalidPalette` error path
exists anywhere in the source. -/
theorem c2_empty_palette_processes :
    floydSteinberg ⟨1, 1, [128, 128, 128, 255]⟩ [] = ⟨1, 1, [0, 0, 0, 255]⟩ := by decide

/-- Decompose the row-major scan at an in-range pixel: everything after it lies strictly
beyond it in the buffer. -/
theorem rowMajor_decomp (w h y x : ℕ) (hy : y < h) (hx : x < w) :
    ∃ A B, rowMajor w h = A ++ (y, x) :: B ∧
      ∀ p ∈ B, p.2 < w ∧ pix w y x + 3 < pix w p.1 p.2 + 3 := by
  have hmem : (y, x) ∈ rowMajor w h := (mem_rowMajor w h (y, x)).mpr ⟨hy, hx⟩
  obtain ⟨A, B, hAB⟩ := List.append_of_mem hmem
  refine ⟨A, B, hAB, ?_⟩
  intro p hp
  have hpmem : p ∈ rowMajor w h := by
    rw [hAB]
    exact List.mem_append_right A (List.mem_cons_of_mem _ hp)
  have hpw := ((mem_rowMajor w h p).mp hpmem).2
  refine ⟨hpw, ?_⟩
  have hpw2 := rowMajor_pairwise w h
  rw [hAB] at hpw2
  have h2 := (List.pairwise_append.mp hpw2).2.1
  have h3 := (List.pairwise_cons.mp h2).1 p hp
  exact pix_lt_of_lex w (y, x) p hx h3

/-- Claim C8: `floydSteinberg` returns a fresh output buffer of the input's dimensions,
leaves the input untouched (the heap view passes the input object through unchanged —
after the initial copy, every store in the source targets `outputData`), and copies every
pixel's alpha byte from input to output unchanged: no quantise or diffusion write ever
touches an index ≡ 3 (mod 4). -/
theorem c8_dither_dims_alpha_input (imageData : ImageDataL) (pal : List (List Char))
    (hlen : imageData.data.length = 4 * (imageData.width * imageData.height)) :
    (floydSteinberg imageData pal).width = imageData.width ∧
    (floydSteinberg imageData pal).height = imageData.height ∧
    (floydSteinbergHeap imageData pal).1 = imageData ∧
    (floydSteinberg imageData pal).data.length = imageData.data.length ∧
    (∀ i : ℕ, i < imageData.width * imageData.height →
      (floydSteinberg imageData pal).data.getD (4 * i + 3) 0
        = imageData.data.getD (4 * i + 3) 0) := by
  have hlen' : imageData.data.length = imageData.width * imageData.height * 4 := by
    omega
  refine ⟨rfl, rfl, rfl, ?_, ?_⟩
  · show (fsPass imageData.width imageData.height pal
      (copyInto (imageData.width * imageData.height * 4) imageData.data)).length
      = imageData.data.length
    rw [fsPass_eq_rowMajor, foldl_dither_length, length_copyInto, hlen']
  · intro i hi
    show (fsPass imageData.width imageData.height pal
        (copyInto (imageData.width * imageData.height * 4) imageData.data)).getD
        (4 * i + 3) 0 = imageData.data.getD (4 * i + 3) 0
    rw [fsPass_eq_rowMajor]
    rw [foldl_dither_frame _ _ _ _ _ _ (fun p hp =>
      ⟨((mem_rowMajor _ _ p).mp hp).2, Or.inr (by omega)⟩)]
    rw [copyInto_self _ _ hlen']

/-- Witness for C8 on a concrete 1×1 RGBA buffer. -/
theorem c8_dither_dims_alpha_input_witness :
    (floydSteinberg ⟨1, 1, [7, 8, 9, 200]⟩ palette01).width = 1 ∧
    (floydSteinberg ⟨1, 1, [7, 8, 9, 200]⟩ palette01).height = 1 ∧
    (floydSteinbergHeap ⟨1, 1, [7, 8, 9, 200]⟩ palette01).1 = ⟨1, 1, [7, 8, 9, 200]⟩ ∧
    (floydSteinberg ⟨1, 1, [7, 8, 9, 200]⟩ palette01).data.length
      = (ImageDataL.mk 1 1 [7, 8, 9, 200]).data.length ∧
    (∀ i : ℕ, i < 1 * 1 →
      (floydSteinberg ⟨1, 1, [7, 8, 9, 200]⟩ palette01).data.getD (4 * i + 3) 0
        = (ImageDataL.mk 1 1 [7, 8, 9, 200]).data.getD (4 * i + 3) 0) := by
  have h := c8_dither_dims_alpha_input ⟨1, 1, [7, 8, 9, 200]⟩ palette01 (by decide)
  exact ⟨h.1, h.2.1, h.2.2.1, h.2.2.2.1, fun i hi => h.2.2.2.2 i hi⟩

/-- Claim C2 (amended): with an empty palette no error is raised and the full pass still
runs; every pixel's RGB in the output is the `findClosestColor` fallback (0, 0, 0) and
its alpha byte is copied from the input. -/
theorem c2_empty_palette_all_black (w h : ℕ) (dat : List ℕ) (y x : ℕ)
    (hlen : dat.length = 4 * (w * h)) (hy : y < h) (hx : x < w) :
    (floydSteinberg ⟨w, h, dat⟩ []).data.getD (pix w y x) 0 = 0 ∧
    (floydSteinberg ⟨w, h, dat⟩ []).data.getD (pix w y x + 1) 0 = 0 ∧
    (floydSteinberg ⟨w, h, dat⟩ []).data.getD (pix w y x + 2) 0 = 0 ∧
    (floydSteinberg ⟨w, h, dat⟩ []).data.getD (pix w y x + 3) 0
      = dat.getD (pix w y x + 3) 0 := by
  have hlen' : dat.length = w * h * 4 := by omega
  have hcopy : copyInto (w * h * 4) dat = dat := copyInto_self _ _ hlen'
  obtain ⟨A, B, hAB, hB⟩ := rowMajor_decomp w h y x hy hx
  have hbufA : ∀ b0 : List ℕ, b0.length = 4 * (w * h) →
      (A.foldl (fun b p => ditherPixel w h [] b p.1 p.2) b0).length = 4 * (w * h) := by
    intro b0 h0
    rw [foldl_dither_length, h0]
  have key : ∀ c : ℕ, c < 3 →
      (floydSteinberg ⟨w, h, dat⟩ []).data.getD (pix w y x + c) 0 = 0 := by
    intro c hc
    show (fsPass w h [] (copyInto (w * h * 4) dat)).getD (pix w y x + c) 0 = 0
    rw [hcopy, fsPass_eq_rowMajor, hAB, List.foldl_append, List.foldl_cons]
    rw [foldl_dither_frame _ _ _ _ _ _ (fun p hp => ⟨(hB p hp).1, Or.inl (by
      have h1 := (hB p hp).2
      have h2 := pix_mod4 w y x
      have h3 := pix_mod4 w p.1 p.2
      omega)⟩)]
    have hq := ditherPixel_quantize w h []
      (A.foldl (fun b p => ditherPixel w h [] b p.1 p.2) dat) y x
      (hbufA dat (by omega)) hy hx
    have hquant : quantizedAt [] (A.foldl (fun b p => ditherPixel w h [] b p.1 p.2) dat)
        (pix w y x) = (0, 0, 0) := rfl
    interval_cases c
    · rw [show pix w y x + 0 = pix w y x by omega, hq.1, hquant]
      rfl
    · rw [hq.2.1, hquant]
      rfl
    · rw [hq.2.2, hquant]
      rfl
  refine ⟨?_, ?_, ?_, ?_⟩
  · have := key 0 (by omega)
    rwa [show pix w y x + 0 = pix w y x by omega] at this
  · exact key 1 (by omega)
  · exact key 2 (by omega)
  · show (fsPass w h [] (copyInto (w * h * 4) dat)).getD (pix w y x + 3) 0
      = dat.getD (pix w y x + 3) 0
    rw [hcopy, fsPass_eq_rowMajor]
    rw [foldl_dither_frame _ _ _ _ _ _ (fun p hp =>
      ⟨((mem_rowMajor _ _ p).mp hp).2, Or.inr (by
        have := pix_mod4 w y x
        omega)⟩)]

/-- Witness for the amended C2 on a concrete 1×1 buffer. -/
theorem c2_empty_palette_all_black_witness :
    (floydSteinberg ⟨1, 1, [128, 128, 128, 255]⟩ []).data.getD (pix 1 0 0) 0 = 0 ∧
    (floydSteinberg ⟨1, 1, [128, 128, 128, 255]⟩ []).data.getD (pix 1 0 0 + 1) 0 = 0 ∧
    (floydSteinberg ⟨1, 1, [128, 128, 128, 255]⟩ []).data.getD (pix 1 0 0 + 2) 0 = 0 ∧
    (floydSteinberg ⟨1, 1, [128, 128, 128, 255]⟩ []).data.getD (pix 1 0 0 + 3) 0
      = [128, 128, 128, 255].getD (pix 1 0 0 + 3) 0 :=
  c2_empty_palette_all_black 1 1 [128, 128, 128, 255] 0 0 (by decide) (by decide) (by decide)

/-- Claim C4 (amended): the ditherer visits pixels by folding over the row-major list
(strictly sorted top-to-bottom then left-to-right, containing exactly the in-bounds
pixels); one step writes the quantised colour into the pixel itself, adds the signed
per-channel error to exactly the in-bounds neighbours right (weight 7/16), bottom-left
(3/16), bottom (5/16) and bottom-right (1/16) — each write being the 8-bit
`Uint8ClampedArray` store (round half to even) of
`clamp(currentValue + error * weight / 16, 0, 255)`, per channel independently — and
touches nothing else: no wraparound and no renormalisation of weights dropped at
boundaries.  (The claim as literally stated omits the rounding of the store; see the
counterexample `c4_diffused_write_is_rounded`.) -/
theorem c4_raster_kernel (w h : ℕ) (pal : List (List Char)) (buf : List ℕ) (y x : ℕ)
    (hlen : buf.length = 4 * (w * h)) (hy : y < h) (hx : x < w) :
    (∀ b0 : List ℕ, fsPass w h pal b0 =
      (rowMajor w h).foldl (fun b p => ditherPixel w h pal b p.1 p.2) b0) ∧
    (rowMajor w h).Pairwise (fun p q => p.1 < q.1 ∨ (p.1 = q.1 ∧ p.2 < q.2)) ∧
    (∀ p : ℕ × ℕ, p ∈ rowMajor w h ↔ p.1 < h ∧ p.2 < w) ∧
    ((ditherPixel w h pal buf y x).getD (pix w y x) 0
        = toByte (quantizedAt pal buf (pix w y x)).1 ∧
      (ditherPixel w h pal buf y x).getD (pix w y x + 1) 0
        = toByte (quantizedAt pal buf (pix w y x)).2.1 ∧
      (ditherPixel w h pal buf y x).getD (pix w y x + 2) 0
        = toByte (quantizedAt pal buf (pix w y x)).2.2) ∧
    (x + 1 < w →
      (ditherPixel w h pal buf y x).getD (pix w y (x + 1)) 0
          = clampStore ((buf.getD (pix w y (x + 1)) 0 : ℚ)
              + ((errAt pal buf (pix w y x)).1 : ℚ) * 7 / 16) ∧
      (ditherPixel w h pal buf y x).getD (pix w y (x + 1) + 1) 0
          = clampStore ((buf.getD (pix w y (x + 1) + 1) 0 : ℚ)
              + ((errAt pal buf (pix w y x)).2.1 : ℚ) * 7 / 16) ∧
      (ditherPixel w h pal buf y x).getD (pix w y (x + 1) + 2) 0
          = clampStore ((buf.getD (pix w y (x + 1) + 2) 0 : ℚ)
              + ((errAt pal buf (pix w y x)).2.2 : ℚ) * 7 / 16)) ∧
    (0 < x ∧ y + 1 < h →
      (ditherPixel w h pal buf y x).getD (pix w (y + 1) (x - 1)) 0
          = clampStore ((buf.getD (pix w (y + 1) (x - 1)) 0 : ℚ)
              + ((errAt pal buf (pix w y x)).1 : ℚ) * 3 / 16) ∧
      (ditherPixel w h pal buf y x).getD (pix w (y + 1) (x - 1) + 1) 0
          = clampStore ((buf.getD (pix w (y + 1) (x - 1) + 1) 0 : ℚ)
              + ((errAt pal buf (pix w y x)).2.1 : ℚ) * 3 / 16) ∧
      (ditherPixel w h pal buf y x).getD (pix w (y + 1) (x - 1) + 2) 0
          = clampStore ((buf.getD (pix w (y + 1) (x - 1) + 2) 0 : ℚ)
              + ((errAt pal buf (pix w y x)).2.2 : ℚ) * 3 / 16)) ∧
    (y + 1 < h →
      (ditherPixel w h pal buf y x).getD (pix w (y + 1) x) 0
          = clampStore ((buf.getD (pix w (y + 1) x) 0 : ℚ)
              + ((errAt pal buf (pix w y x)).1 : ℚ) * 5 / 16) ∧
      (ditherPixel w h pal buf y x).getD (pix w (y + 1) x + 1) 0
          = clampStore ((buf.getD (pix w (y + 1) x + 1) 0 : ℚ)
              + ((errAt pal buf (pix w y x)).2.1 : ℚ) * 5 / 16) ∧
      (ditherPixel w h pal buf y x).getD (pix w (y + 1) x + 2) 0
          = clampStore ((buf.getD (pix w (y + 1) x + 2) 0 : ℚ)
              + ((errAt pal buf (pix w y x)).2.2 : ℚ) * 5 / 16)) ∧
    (x + 1 < w ∧ y + 1 < h →
      (ditherPixel w h pal buf y x).getD (pix w (y + 1) (x + 1)) 0
          = clampStore ((buf.getD (pix w (y + 1) (x + 1)) 0 : ℚ)
              + ((errAt pal buf (pix w y x)).1 : ℚ) * 1 / 16) ∧
      (ditherPixel w h pal buf y x).getD (pix w (y + 1) (x + 1) + 1) 0
          = clampStore ((buf.getD (pix w (y + 1) (x + 1) + 1) 0 : ℚ)
              + ((errAt pal buf (pix w y x)).2.1 : ℚ) * 1 / 16) ∧
      (ditherPixel w h pal buf y x).getD (pix w (y + 1) (x + 1) + 2) 0
          = clampStore ((buf.getD (pix w (y + 1) (x + 1) + 2) 0 : ℚ)
              + ((errAt pal buf (pix w y x)).2.2 : ℚ) * 1 / 16)) ∧
    (∀ j : ℕ, ¬(pix w y x ≤ j ∧ j ≤ pix w y x + 2) →
      (x + 1 < w → ¬(pix w y (x + 1) ≤ j ∧ j ≤ pix w y (x + 1) + 2)) →
      (0 < x ∧ y + 1 < h →
        ¬(pix w (y + 1) (x - 1) ≤ j ∧ j ≤ pix w (y + 1) (x - 1) + 2)) →
      (y + 1 < h → ¬(pix w (y + 1) x ≤ j ∧ j ≤ pix w (y + 1) x + 2)) →
      (x + 1 < w ∧ y + 1 < h →
        ¬(pix w (y + 1) (x + 1) ≤ j ∧ j ≤ pix w (y + 1) (x + 1) + 2)) →
      (ditherPixel w h pal buf y x).getD j 0 = buf.getD j 0) := by
  refine ⟨fun b0 => fsPass_eq_rowMajor w h pal b0, rowMajor_pairwise w h,
    fun p => mem_rowMajor w h p, ditherPixel_quantize w h pal buf y x hlen hy hx,
    fun hxr => ditherPixel_right_value w h pal buf y x hlen hy hxr,
    fun hbl => ditherPixel_bottom_left_value w h pal buf y x hlen hy hx hbl.1 hbl.2,
    fun hy1 => ditherPixel_bottom_value w h pal buf y x hlen hy hx hy1,
    fun hbr => ditherPixel_bottom_right_value w h pal buf y x hlen hy hbr.1 hbr.2,
    fun j h0 h1 h2 h3 h4 =>
      ditherPixel_untouched w h pal buf y x j (by omega) h0 h1 h2 h3 h4⟩

/-- Claim C4 counterexample: the written neighbour value is not literally
`clamp(currentValue + error * weight / 16, 0, 255)` — that real number is fractional and
the `Uint8ClampedArray` store rounds it (half to even).  On a 2×1 all-128 buffer with the
black/white palette, pixel (0,0) quantises to white with error −127 per channel, the
claim's formula gives 128 − 127·7/16 = 72.4375 for the right neighbour, and the code
stores 72. -/
theorem c4_diffused_write_is_rounded :
    (ditherPixel 2 1 palette01 [128, 128, 128, 255, 128, 128, 128, 255] 0 0).getD
        (pix 2 0 1) 0 = 72 ∧
    max 0 (min 255 ((128 : ℚ) + ((128 : ℚ) - 255) * 7 / 16)) ≠ (72 : ℚ) := by
  constructor
  · decide
  · have h1 : (128 : ℚ) + ((128 : ℚ) - 255) * 7 / 16 = 1159 / 16 := by norm_num
    rw [h1]
    have h2 : min (255 : ℚ) (1159 / 16) = 1159 / 16 := by
      rw [min_eq_right]
      norm_num
    rw [h2]
    have h3 : max (0 : ℚ) (1159 / 16) = 1159 / 16 := by
      rw [max_eq_right]
      norm_num
    rw [h3]
    norm_num

/-- Witness for C4 on a 3×2 all-128 buffer at pixel (x, y) = (1, 0), where all four
neighbours are in bounds. -/
theorem c4_raster_kernel_witness :
    (ditherPixel 3 2 palette01 (List.replicate 24 128) 0 1).getD (pix 3 0 1) 0
        = toByte (quantizedAt palette01 (List.replicate 24 128) (pix 3 0 1)).1 ∧
    (ditherPixel 3 2 palette01 (List.replicate 24 128) 0 1).getD (pix 3 0 2) 0
        = clampStore (((List.replicate 24 128 : List ℕ).getD (pix 3 0 2) 0 : ℚ)
            + ((errAt palette01 (List.replicate 24 128) (pix 3 0 1)).1 : ℚ) * 7 / 16) ∧
    (ditherPixel 3 2 palette01 (List.replicate 24 128) 0 1).getD (pix 3 1 0) 0
        = clampStore (((List.replicate 24 128 : List ℕ).getD (pix 3 1 0) 0 : ℚ)
            + ((errAt palette01 (List.replicate 24 128) (pix 3 0 1)).1 : ℚ) * 3 / 16) ∧
    (ditherPixel 3 2 palette01 (List.replicate 24 128) 0 1).getD (pix 3 1 1) 0
        = clampStore (((List.replicate 24 128 : List ℕ).getD (pix 3 1 1) 0 : ℚ)
            + ((errAt palette01 (List.replicate 24 128) (pix 3 0 1)).1 : ℚ) * 5 / 16) ∧
    (ditherPixel 3 2 palette01 (List.replicate 24 128) 0 1).getD (pix 3 1 2) 0
        = clampStore (((List.replicate 24 128 : List ℕ).getD (pix 3 1 2) 0 : ℚ)
            + ((errAt palette01 (List.replicate 24 128) (pix 3 0 1)).1 : ℚ) * 1 / 16) ∧
    (ditherPixel 3 2 palette01 (List.replicate 24 128) 0 1).getD 0 0
        = (List.replicate 24 128 : List ℕ).getD 0 0 := by
  have h := c4_raster_kernel 3 2 palette01 (List.replicate 24 128) 0 1 (by decide)
    (by decide) (by decide)
  refine ⟨h.2.2.2.1.1, (h.2.2.2.2.1 (by decide)).1, (h.2.2.2.2.2.1 ⟨by decide, by decide⟩).1,
    (h.2.2.2.2.2.2.1 (by decide)).1, (h.2.2.2.2.2.2.2.1 ⟨by decide, by decide⟩).1,
    h.2.2.2.2.2.2.2.2 0 (by decide) (fun _ => by decide) (fun _ => by decide)
      (fun _ => by decide) (fun _ => by decide)⟩

/-- At the default levels `{0, 1.0, 255}` the tone curve fixes the mid-gray value 128:
the exponent is exactly 1 and IEEE `pow(x, 1) = x`. -/
theorem applyLevels_default_128 (pow : ℚ → ℚ → ℚ) (hpow : ∀ q : ℚ, pow q 1 = q) :
    applyLevels pow 128 0 1 255 = 128 := by
  have hc1 : ¬((128 : ℤ) ≤ 0) := by norm_num
  have hc2 : ¬((128 : ℤ) ≥ 255) := by norm_num
  simp only [applyLevels, hc1, hc2, if_false]
  have hg : (1 : ℚ) / 1 = 1 := by norm_num
  rw [show ((128 : ℤ) : ℚ) = 128 by norm_num, show ((0 : ℤ) : ℚ) = 0 by norm_num,
    show ((255 : ℤ) : ℚ) = 255 by norm_num, hg, hpow]
  have hv : (128 - 0 : ℚ) / (255 - 0) * 255 = 128 := by norm_num
  rw [hv]
  have : ⌊(128 : ℚ) + 1 / 2⌋ = 128 := by
    rw [Int.floor_eq_iff]
    constructor <;> norm_num
  simp only [jsRound, this]

/-- The Levels loop at default settings fixes the all-mid-gray RGBA stream. -/
theorem levelsLoop_gray (pow : ℚ → ℚ → ℚ) (hpow : ∀ q : ℚ, pow q 1 = q) :
    ∀ n : ℕ, levelsLoop pow ⟨0, 1, 255⟩ ((List.replicate n [128, 128, 128, 255]).flatten)
      = (List.replicate n [128, 128, 128, 255]).flatten := by
  intro n
  induction n with
  | zero => rfl
  | succ m ih =>
    rw [List.replicate_succ, List.flatten_cons]
    show levelsLoop pow ⟨0, 1, 255⟩ (128 :: 128 :: 128 :: 255 ::
      (List.replicate m [128, 128, 128, 255]).flatten) = _
    simp only [levelsLoop, Nat.cast_ofNat, applyLevels_default_128 pow hpow, ih]
    norm_num [toByte]
    decide

/-- The Levels stage at default settings is the identity on the 4×4 all-mid-gray
source. -/
theorem levels_default_gray4 (pow : ℚ → ℚ → ℚ) (hpow : ∀ q : ℚ, pow q 1 = q) :
    applyLevelsToImageData pow gray4 defaultLevels = gray4 := by
  show applyLevelsToImageData pow gray4 ⟨0, 1, 255⟩ = gray4
  simp only [applyLevelsToImageData, gray4, levelsLoop_gray pow hpow]

set_option maxRecDepth 16000 in
/-- Claim C3 counterexample: running the pipeline (levels at defaults, then
Floyd–Steinberg with palette [#000000, #FFFFFF]) on the 4×4 all-(128,128,128,255) source,
the first pixel (0,0) quantises to WHITE, not black: 128 is strictly closer to 255
(distance 127·√3) than to 0 (distance 128·√3), and no error has been diffused into the
first pixel when it is processed.  (`powAtOne` is exact for the only exponent the run
uses, 1/midPoint = 1.) -/
theorem c3_first_pixel_is_white :
    (processStages powAtOne gray4 defaultLevels palette01).data.getD 0 0 = 255 ∧
    (processStages powAtOne gray4 defaultLevels palette01).data.getD 1 0 = 255 ∧
    (processStages powAtOne gray4 defaultLevels palette01).data.getD 2 0 = 255 ∧
    (255 : ℕ) ≠ 0 := by
  have hL := levels_default_gray4 powAtOne (fun q => by simp [powAtOne])
  refine ⟨?_, ?_, ?_, by decide⟩ <;>
    · show (floydSteinberg (applyLevelsToImageData powAtOne gray4 defaultLevels)
        palette01).data.getD _ 0 = 255
      rw [hL]
      decide

set_option maxRecDepth 16000 in
/-- Claim C3 (amended): the end-to-end pipeline on the 4×4 all-mid-gray source with
default levels and the black/white palette produces the deterministic checkerboard
starting with WHITE at (0,0); every output pixel is (0,0,0,255) or (255,255,255,255). -/
theorem c3_golden_checkerboard (pow : ℚ → ℚ → ℚ) (hpow : ∀ q : ℚ, pow q 1 = q) :
    (processStages pow gray4 defaultLevels palette01).data =
      [255, 255, 255, 255, 0, 0, 0, 255, 255, 255, 255, 255, 0, 0, 0, 255,
       0, 0, 0, 255, 255, 255, 255, 255, 0, 0, 0, 255, 255, 255, 255, 255,
       255, 255, 255, 255, 0, 0, 0, 255, 255, 255, 255, 255, 0, 0, 0, 255,
       0, 0, 0, 255, 255, 255, 255, 255, 0, 0, 0, 255, 255, 255, 255, 255] ∧
    (∀ i : ℕ, i < 16 →
      ((processStages pow gray4 defaultLevels palette01).data.getD (4 * i) 0,
       (processStages pow gray4 defaultLevels palette01).data.getD (4 * i + 1) 0,
       (processStages pow gray4 defaultLevels palette01).data.getD (4 * i + 2) 0,
       (processStages pow gray4 defaultLevels palette01).data.getD (4 * i + 3) 0)
        = (0, 0, 0, 255) ∨
      ((processStages pow gray4 defaultLevels palette01).data.getD (4 * i) 0,
       (processStages pow gray4 defaultLevels palette01).data.getD (4 * i + 1) 0,
       (processStages pow gray4 defaultLevels palette01).data.getD (4 * i + 2) 0,
       (processStages pow gray4 defaultLevels palette01).data.getD (4 * i + 3) 0)
        = (255, 255, 255, 255)) := by
  have hL := levels_default_gray4 pow hpow
  have hdata : (processStages pow gray4 defaultLevels palette01).data =
      [255, 255, 255, 255, 0, 0, 0, 255, 255, 255, 255, 255, 0, 0, 0, 255,
       0, 0, 0, 255, 255, 255, 255, 255, 0, 0, 0, 255, 255, 255, 255, 255,
       255, 255, 255, 255, 0, 0, 0, 255, 255, 255, 255, 255, 0, 0, 0, 255,
       0, 0, 0, 255, 255, 255, 255, 255, 0, 0, 0, 255, 255, 255, 255, 255] := by
    show (floydSteinberg (applyLevelsToImageData pow gray4 defaultLevels)
      palette01).data = _
    rw [hL]
    decide
  refine ⟨hdata, ?_⟩
  intro i hi
  rw [hdata]
  interval_cases i <;> simp

/-- Witness for the amended C3, instantiated at the exact-at-exponent-one power model. -/
theorem c3_golden_checkerboard_witness :
    (processStages powAtOne gray4 defaultLevels palette01).data =
      [255, 255, 255, 255, 0, 0, 0, 255, 255, 255, 255, 255, 0, 0, 0, 255,
       0, 0, 0, 255, 255, 255, 255, 255, 0, 0, 0, 255, 255, 255, 255, 255,
       255, 255, 255, 255, 0, 0, 0, 255, 255, 255, 255, 255, 0, 0, 0, 255,
       0, 0, 0, 255, 255, 255, 255, 255, 0, 0, 0, 255, 255, 255, 255, 255] :=
  (c3_golden_checkerboard powAtOne (fun q => by simp [powAtOne])).1

theorem ltInf_none_eq (d : ℤ) : ltInf d none = true := rfl

theorem ltInf_some_iff (d e : ℤ) : ltInf d (some e) = true ↔ d < e := by
  simp [ltInf]

/-- `fccStep` in terms of the parsed entry: an unparseable entry (`NaN` distance) is
skipped, a parseable one replaces the accumulator exactly when its distance is strictly
below the running minimum. -/
theorem fccStep_eq (r g b : ℤ) (acc : Option ℤ × (ℤ × ℤ × ℤ)) (c : List Char) :
    fccStep r g b acc c =
      match parsedRGB c with
      | some t => if ltInf (distSq r g b t.1 t.2.1 t.2.2) acc.1
          then (some (distSq r g b t.1 t.2.1 t.2.2), t)
        else acc
      | none => acc := by
  simp only [fccStep, parsedRGB]
  rcases hp : parseColor c with ⟨pr, pg, pb⟩
  cases pr <;> cases pg <;> cases pb <;> rfl

theorem fccStep_none (r g b : ℤ) (acc : Option ℤ × (ℤ × ℤ × ℤ)) (c : List Char)
    (hp : parsedRGB c = none) : fccStep r g b acc c = acc := by
  rw [fccStep_eq, hp]

theorem fccStep_some (r g b : ℤ) (acc : Option ℤ × (ℤ × ℤ × ℤ)) (c : List Char)
    (t : ℤ × ℤ × ℤ) (hp : parsedRGB c = some t) :
    fccStep r g b acc c = if ltInf (distSq r g b t.1 t.2.1 t.2.2) acc.1
      then (some (distSq r g b t.1 t.2.1 t.2.2), t) else acc := by
  rw [fccStep_eq, hp]

/-- If no remaining entry strictly beats the running minimum, the loop leaves the
accumulator unchanged. -/
theorem fcc_no_improve (r g b : ℤ) : ∀ (pal : List (List Char)) (m : Option ℤ)
    (cl : ℤ × ℤ × ℤ),
    (∀ c ∈ pal, ∀ t, parsedRGB c = some t →
      ltInf (distSq r g b t.1 t.2.1 t.2.2) m = false) →
    pal.foldl (fccStep r g b) (m, cl) = (m, cl) := by
  intro pal
  induction pal with
  | nil => intro m cl _; rfl
  | cons c rest ih =>
    intro m cl hno
    simp only [List.foldl_cons]
    rcases hp : parsedRGB c with _ | t
    · rw [fccStep_none r g b _ c hp]
      exact ih m cl (fun p hp2 t ht => hno p (List.mem_cons_of_mem c hp2) t ht)
    · rw [fccStep_some r g b _ c t hp]
      have hfalse := hno c (List.mem_cons_self c rest) t hp
      rw [if_neg (by simp [hfalse])]
      exact ih m cl (fun p hp2 t ht => hno p (List.mem_cons_of_mem c hp2) t ht)

theorem ltInf_trans (d e : ℤ) (m : Option ℤ) (h1 : ltInf d (some e) = true)
    (h2 : ltInf e m = true) : ltInf d m = true := by
  cases m with
  | none => rfl
  | some mm =>
    rw [ltInf_some_iff] at h1 h2 ⊢
    omega

/-- The running loop of `findClosestColor` returns the first entry attaining the minimum
distance, whenever some entry strictly beats the starting minimum. -/
theorem fcc_first_min (r g b : ℤ) : ∀ (pal : List (List Char)) (m : Option ℤ)
    (cl : ℤ × ℤ × ℤ),
    (∀ c ∈ pal, (parsedRGB c).isSome) →
    (∃ c ∈ pal, ∃ t, parsedRGB c = some t ∧
      ltInf (distSq r g b t.1 t.2.1 t.2.2) m = true) →
    ∃ A c B t, pal = A ++ c :: B ∧ parsedRGB c = some t ∧
      (pal.foldl (fccStep r g b) (m, cl)).2 = t ∧
      ltInf (distSq r g b t.1 t.2.1 t.2.2) m = true ∧
      (∀ p ∈ A, ∀ tp, parsedRGB p = some tp →
        distSq r g b t.1 t.2.1 t.2.2 < distSq r g b tp.1 tp.2.1 tp.2.2) ∧
      (∀ p ∈ pal, ∀ tp, parsedRGB p = some tp →
        distSq r g b t.1 t.2.1 t.2.2 ≤ distSq r g b tp.1 tp.2.1 tp.2.2) := by
  intro pal
  induction pal with
  | nil =>
    intro m cl _ hex
    obtain ⟨c, hc, _⟩ := hex
    exact absurd hc (List.not_mem_nil c)
  | cons c rest ih =>
    intro m cl hval hex
    obtain ⟨t0, hc⟩ := Option.isSome_iff_exists.mp (hval c (List.mem_cons_self c rest))
    have hvalrest : ∀ p ∈ rest, (parsedRGB p).isSome :=
      fun p hp => hval p (List.mem_cons_of_mem c hp)
    simp only [List.foldl_cons]
    rw [fccStep_some r g b _ c t0 hc]
    by_cases hlt : ltInf (distSq r g b t0.1 t0.2.1 t0.2.2) m = true
    · simp only [hlt, if_true]
      by_cases hrest : ∃ p ∈ rest, ∃ tp, parsedRGB p = some tp ∧
          ltInf (distSq r g b tp.1 tp.2.1 tp.2.2)
            (some (distSq r g b t0.1 t0.2.1 t0.2.2)) = true
      · obtain ⟨A', c', B', t', hAB', hc', hres', hlt', hA', hall'⟩ :=
          ih (some (distSq r g b t0.1 t0.2.1 t0.2.2)) t0 hvalrest hrest
        have ht'lt : distSq r g b t'.1 t'.2.1 t'.2.2
            < distSq r g b t0.1 t0.2.1 t0.2.2 := (ltInf_some_iff _ _).mp hlt'
        refine ⟨c :: A', c', B', t', by rw [hAB', List.cons_append], hc', hres',
          ltInf_trans _ _ m hlt' hlt, ?_, ?_⟩
        · intro p hp tp htp
          rcases List.mem_cons.mp hp with rfl | hp2
          · rw [htp] at hc
            cases hc
            exact ht'lt
          · exact hA' p hp2 tp htp
        · intro p hp tp htp
          rcases List.mem_cons.mp hp with rfl | hp2
          · rw [htp] at hc
            cases hc
            exact le_of_lt ht'lt
          · exact hall' p hp2 tp htp
      · push_neg at hrest
        have hno : ∀ p ∈ rest, ∀ tp, parsedRGB p = some tp →
            ltInf (distSq r g b tp.1 tp.2.1 tp.2.2)
              (some (distSq r g b t0.1 t0.2.1 t0.2.2)) = false := by
          intro p hp tp htp
          have := hrest p hp tp htp
          exact Bool.not_eq_true _ ▸ (by simpa using this)
        rw [fcc_no_improve r g b rest _ _ hno]
        refine ⟨[], c, rest, t0, rfl, hc, rfl, hlt, by simp, ?_⟩
        intro p hp tp htp
        rcases List.mem_cons.mp hp with rfl | hp2
        · rw [htp] at hc
          cases hc
          exact le_refl _
        · have := hno p hp2 tp htp
          rw [ltInf] at this
          simp only [decide_eq_false_iff_not, not_lt] at this
          exact this
    · simp only [hlt, if_false]
      have hm : ∃ mm : ℤ, m = some mm := by
        cases m with
        | none => exact absurd (ltInf_none_eq _) hlt
        | some mm => exact ⟨mm, rfl⟩
      obtain ⟨mm, rfl⟩ := hm
      have hd0ge : mm ≤ distSq r g b t0.1 t0.2.1 t0.2.2 := by
        rw [ltInf] at hlt
        simpa using hlt
      have hexrest : ∃ p ∈ rest, ∃ tp, parsedRGB p = some tp ∧
          ltInf (distSq r g b tp.1 tp.2.1 tp.2.2) (some mm) = true := by
        obtain ⟨c0, hc0, tc0, htc0, hltc0⟩ := hex
        rcases List.mem_cons.mp hc0 with rfl | hc02
        · rw [htc0] at hc
          cases hc
          exact absurd hltc0 hlt
        · exact ⟨c0, hc02, tc0, htc0, hltc0⟩
      obtain ⟨A', c', B', t', hAB', hc', hres', hlt', hA', hall'⟩ :=
        ih (some mm) cl hvalrest hexrest
      have ht'lt : distSq r g b t'.1 t'.2.1 t'.2.2 < mm := (ltInf_some_iff _ _).mp hlt'
      refine ⟨c :: A', c', B', t', by rw [hAB', List.cons_append], hc', hres', hlt',
        ?_, ?_⟩
      · intro p hp tp htp
        rcases List.mem_cons.mp hp with rfl | hp2
        · rw [htp] at hc
          cases hc
          omega
        · exact hA' p hp2 tp htp
      · intro p hp tp htp
        rcases List.mem_cons.mp hp with rfl | hp2
        · rw [htp] at hc
          cases hc
          omega
        · exact hall' p hp2 tp htp

/-- Claim C5: for every colour and every non-empty palette of parseable `#RRGGBB`
entries, `findClosestColor` returns the parsed value of a palette entry that attains the
minimum (squared) Euclidean RGB distance, and it is the first entry attaining it: every
entry before it is strictly farther.  (The source compares correctly rounded double
square roots of the integer squared distances, which order exactly as the integers do —
see `distSq`.)  In particular, at the exact tie-adjacent input (127,127,127) with the
default palette the black entry wins. -/
theorem c5_closest_first_min (r g b : ℤ) (pal : List (List Char)) (hne : pal ≠ [])
    (hval : ∀ c ∈ pal, (parsedRGB c).isSome) :
    (∃ A c B t, pal = A ++ c :: B ∧ parsedRGB c = some t ∧
      findClosestColor r g b pal = t ∧
      (∀ p ∈ A, ∀ tp, parsedRGB p = some tp →
        distSq r g b t.1 t.2.1 t.2.2 < distSq r g b tp.1 tp.2.1 tp.2.2) ∧
      (∀ p ∈ pal, ∀ tp, parsedRGB p = some tp →
        distSq r g b t.1 t.2.1 t.2.2 ≤ distSq r g b tp.1 tp.2.1 tp.2.2)) ∧
    findClosestColor 127 127 127 palette01 = (0, 0, 0) := by
  constructor
  · obtain ⟨c0, rest0, rfl⟩ : ∃ c0 rest0, pal = c0 :: rest0 := by
      cases pal with
      | nil => exact absurd rfl hne
      | cons a l => exact ⟨a, l, rfl⟩
    obtain ⟨t0, ht0⟩ := Option.isSome_iff_exists.mp
      (hval c0 (List.mem_cons_self c0 rest0))
    have hex : ∃ c ∈ c0 :: rest0, ∃ t, parsedRGB c = some t ∧
        ltInf (distSq r g b t.1 t.2.1 t.2.2) none = true :=
      ⟨c0, List.mem_cons_self c0 rest0, t0, ht0, ltInf_none_eq _⟩
    obtain ⟨A, c, B, t, hAB, hc, hres, _, hA, hall⟩ :=
      fcc_first_min r g b (c0 :: rest0) none (0, 0, 0) hval hex
    exact ⟨A, c, B, t, hAB, hc, hres, hA, hall⟩
  · decide

/-- Witness for C5 at the spec's tie-adjacent input and the default palette. -/
theorem c5_closest_first_min_witness :
    (∃ A c B t, palette01 = A ++ c :: B ∧ parsedRGB c = some t ∧
      findClosestColor 127 127 127 palette01 = t ∧
      (∀ p ∈ A, ∀ tp, parsedRGB p = some tp →
        distSq 127 127 127 t.1 t.2.1 t.2.2 < distSq 127 127 127 tp.1 tp.2.1 tp.2.2) ∧
      (∀ p ∈ palette01, ∀ tp, parsedRGB p = some tp →
        distSq 127 127 127 t.1 t.2.1 t.2.2 ≤ distSq 127 127 127 tp.1 tp.2.1 tp.2.2)) ∧
    findClosestColor 127 127 127 palette01 = (0, 0, 0) :=
  c5_closest_first_min 127 127 127 palette01 (by decide) (by decide)

theorem halfEvenRound_eval_lt (q : ℚ) (f : ℤ) (hf : ⌊q⌋ = f) (hr : q - (f : ℚ) < 1 / 2) :
    halfEvenRound q = f := by
  simp only [halfEvenRound, hf]
  rw [if_pos hr]

theorem halfEvenRound_eval_gt (q : ℚ) (f : ℤ) (hf : ⌊q⌋ = f)
    (hr1 : ¬(q - (f : ℚ) < 1 / 2)) (hr2 : 1 / 2 < q - (f : ℚ)) :
    halfEvenRound q = f + 1 := by
  simp only [halfEvenRound, hf]
  rw [if_neg hr1, if_pos hr2]

theorem floorLog2_eval_ge1 (q : ℚ) (f : ℤ) (hf : ⌊q⌋ = f) (h1 : 1 ≤ q) :
    floorLog2 q = (log2Fuel f.toNat f.toNat : ℤ) := by
  simp only [floorLog2, hf]
  rw [if_pos h1]

theorem floorLog2_eval_lt1 (q : ℚ) (cI : ℤ) (hc : ⌈q⁻¹⌉ = cI) (h1 : ¬(1 ≤ q)) :
    floorLog2 q = -(clog2Fuel cI.toNat cI.toNat : ℤ) := by
  simp only [floorLog2, hc]
  rw [if_neg h1]

/-- Evaluate `roundDouble` at a positive rational once the significand window exponent
and the rounded significand are known. -/
theorem roundDouble_eval_pos (q : ℚ) (z : ℤ) (m : ℤ) (hq : 0 < q)
    (hz : 52 - floorLog2 q = z)
    (hlo : ¬(q * 2 ^ z < 2 ^ (52 : ℕ))) (hhi : ¬((2 ^ (53 : ℕ) : ℚ) ≤ q * 2 ^ z))
    (hm : halfEvenRound (q * 2 ^ z) = m) :
    roundDouble q = (m : ℚ) / 2 ^ z := by
  have habs : |q| = q := abs_of_pos hq
  simp only [roundDouble, habs, hz, hq.ne', if_false, hlo, hhi, not_lt.mpr hq.le, hm]
  ring

theorem jsRound_int (n : ℤ) : jsRound ((n : ℚ)) = n := by
  simp only [jsRound]
  rw [Int.floor_int_add]
  have : ⌊(1 / 2 : ℚ)⌋ = 0 := by
    rw [Int.floor_eq_iff]
    norm_num
  omega

theorem roundDouble_29cent :
    roundDouble (29 / 100 : ℚ) = 5224175567749775 / 2 ^ (54 : ℤ) := by
  have hfl : floorLog2 (29 / 100 : ℚ) = -2 := by
    rw [floorLog2_eval_lt1 (29 / 100 : ℚ) 4 ?hc (by norm_num)]
    · decide
    case hc =>
      rw [show ((29 : ℚ) / 100)⁻¹ = 100 / 29 by norm_num, Int.ceil_eq_iff]
      norm_num
  have hfloor : ⌊(29 / 100 : ℚ) * 2 ^ (54 : ℤ)⌋ = 5224175567749775 := by
    rw [Int.floor_eq_iff]
    norm_num
  refine roundDouble_eval_pos _ 54 _ (by norm_num) (by rw [hfl]; norm_num) ?_ ?_ ?_
  · norm_num
  · norm_num
  · exact halfEvenRound_eval_lt _ _ hfloor (by norm_num)

theorem roundDouble_50x29 :
    roundDouble ((50 : ℚ) * (5224175567749775 / 2 ^ (54 : ℤ)))
      = 8162774324609023 / 2 ^ (49 : ℤ) := by
  have hfl : floorLog2 ((50 : ℚ) * (5224175567749775 / 2 ^ (54 : ℤ))) = 3 := by
    rw [floorLog2_eval_ge1 _ 14 ?hf (by norm_num)]
    · decide
    case hf =>
      rw [Int.floor_eq_iff]
      norm_num
  have hfloor : ⌊(50 : ℚ) * (5224175567749775 / 2 ^ (54 : ℤ)) * 2 ^ (49 : ℤ)⌋
      = 8162774324609023 := by
    rw [Int.floor_eq_iff]
    norm_num
  refine roundDouble_eval_pos _ 49 _ (by norm_num) (by rw [hfl]; norm_num) ?_ ?_ ?_
  · norm_num
  · norm_num
  · exact halfEvenRound_eval_lt _ _ hfloor (by norm_num)

theorem roundDouble_10cent :
    roundDouble (10 / 100 : ℚ) = 7205759403792794 / 2 ^ (56 : ℤ) := by
  have hfl : floorLog2 (10 / 100 : ℚ) = -4 := by
    rw [floorLog2_eval_lt1 (10 / 100 : ℚ) 10 ?hc (by norm_num)]
    · decide
    case hc =>
      rw [show ((10 : ℚ) / 100)⁻¹ = 10 by norm_num, Int.ceil_eq_iff]
      norm_num
  have hfloor : ⌊(10 / 100 : ℚ) * 2 ^ (56 : ℤ)⌋ = 7205759403792793 := by
    rw [Int.floor_eq_iff]
    norm_num
  refine roundDouble_eval_pos _ 56 _ (by norm_num) (by rw [hfl]; norm_num) ?_ ?_ ?_
  · norm_num
  · norm_num
  · rw [halfEvenRound_eval_gt _ _ hfloor (by norm_num) (by norm_num)]
    norm_num

theorem roundDouble_1000x10 :
    roundDouble ((1000 : ℚ) * (7205759403792794 / 2 ^ (56 : ℤ))) = 100 := by
  have hfl : floorLog2 ((1000 : ℚ) * (7205759403792794 / 2 ^ (56 : ℤ))) = 6 := by
    rw [floorLog2_eval_ge1 _ 100 ?hf (by norm_num)]
    · decide
    case hf =>
      rw [Int.floor_eq_iff]
      norm_num
  have hfloor : ⌊(1000 : ℚ) * (7205759403792794 / 2 ^ (56 : ℤ)) * 2 ^ (46 : ℤ)⌋
      = 7036874417766400 := by
    rw [Int.floor_eq_iff]
    norm_num
  have h := roundDouble_eval_pos ((1000 : ℚ) * (7205759403792794 / 2 ^ (56 : ℤ))) 46
    7036874417766400 (by norm_num) (by rw [hfl]; norm_num) (by norm_num) (by norm_num)
    (halfEvenRound_eval_lt _ _ hfloor (by norm_num))
  rw [h]
  norm_num

theorem roundDouble_500x10 :
    roundDouble ((500 : ℚ) * (7205759403792794 / 2 ^ (56 : ℤ))) = 50 := by
  have hfl : floorLog2 ((500 : ℚ) * (7205759403792794 / 2 ^ (56 : ℤ))) = 5 := by
    rw [floorLog2_eval_ge1 _ 50 ?hf (by norm_num)]
    · decide
    case hf =>
      rw [Int.floor_eq_iff]
      norm_num
  have hfloor : ⌊(500 : ℚ) * (7205759403792794 / 2 ^ (56 : ℤ)) * 2 ^ (47 : ℤ)⌋
      = 7036874417766400 := by
    rw [Int.floor_eq_iff]
    norm_num
  have h := roundDouble_eval_pos ((500 : ℚ) * (7205759403792794 / 2 ^ (56 : ℤ))) 47
    7036874417766400 (by norm_num) (by rw [hfl]; norm_num) (by norm_num) (by norm_num)
    (halfEvenRound_eval_lt _ _ hfloor (by norm_num))
  rw [h]
  norm_num

theorem roundDouble_two : roundDouble (2 : ℚ) = 2 := by
  have hfl : floorLog2 (2 : ℚ) = 1 := by
    rw [floorLog2_eval_ge1 _ 2 ?hf (by norm_num)]
    · decide
    case hf =>
      rw [Int.floor_eq_iff]
      norm_num
  have hfloor : ⌊(2 : ℚ) * 2 ^ (51 : ℤ)⌋ = 4503599627370496 := by
    rw [Int.floor_eq_iff]
    norm_num
  have h := roundDouble_eval_pos (2 : ℚ) 51 4503599627370496 (by norm_num)
    (by rw [hfl]; norm_num) (by norm_num) (by norm_num)
    (halfEvenRound_eval_lt _ _ hfloor (by norm_num))
  rw [h]
  norm_num

theorem roundDouble_200 : roundDouble (200 : ℚ) = 200 := by
  have hfl : floorLog2 (200 : ℚ) = 7 := by
    rw [floorLog2_eval_ge1 _ 200 ?hf (by norm_num)]
    · decide
    case hf =>
      rw [Int.floor_eq_iff]
      norm_num
  have hfloor : ⌊(200 : ℚ) * 2 ^ (45 : ℤ)⌋ = 7036874417766400 := by
    rw [Int.floor_eq_iff]
    norm_num
  have h := roundDouble_eval_pos (200 : ℚ) 45 7036874417766400 (by norm_num)
    (by rw [hfl]; norm_num) (by norm_num) (by norm_num)
    (halfEvenRound_eval_lt _ _ hfloor (by norm_num))
  rw [h]
  norm_num

theorem roundDouble_100 : roundDouble (100 : ℚ) = 100 := by
  have hfl : floorLog2 (100 : ℚ) = 6 := by
    rw [floorLog2_eval_ge1 _ 100 ?hf (by norm_num)]
    · decide
    case hf =>
      rw [Int.floor_eq_iff]
      norm_num
  have hfloor : ⌊(100 : ℚ) * 2 ^ (46 : ℤ)⌋ = 7036874417766400 := by
    rw [Int.floor_eq_iff]
    norm_num
  have h := roundDouble_eval_pos (100 : ℚ) 46 7036874417766400 (by norm_num)
    (by rw [hfl]; norm_num) (by norm_num) (by norm_num)
    (halfEvenRound_eval_lt _ _ hfloor (by norm_num))
  rw [h]
  norm_num

/-- Claim C10 counterexample: at source width 50 and ProcessingScale 29 % the code
computes `Math.round(50 * 0.29)` on doubles; `0.29` rounds to a double slightly below
29/100, the product is 14.499999999999998 and `Math.round` gives 14 — but the claim's
exact formula `round(50 * 29 / 100) = round(14.5)` gives 15. -/
theorem c10_processed_size_float_divergence :
    calculateProcessedSize ⟨50, 50⟩ 29 = ⟨14, 14⟩ ∧
    processedSizeSpec ⟨50, 50⟩ 29 = ⟨15, 15⟩ ∧
    calculateProcessedSize ⟨50, 50⟩ 29 ≠ processedSizeSpec ⟨50, 50⟩ 29 := by
  have hfield : jsRound (roundDouble (((50 : ℤ) : ℚ)
      * roundDouble (((29 : ℤ) : ℚ) / 100))) = 14 := by
    rw [show (((29 : ℤ) : ℚ)) / 100 = 29 / 100 by norm_num, roundDouble_29cent,
      show (((50 : ℤ) : ℚ)) * ((5224175567749775 : ℚ) / 2 ^ (54 : ℤ))
        = (50 : ℚ) * (5224175567749775 / 2 ^ (54 : ℤ)) by norm_num,
      roundDouble_50x29]
    simp only [jsRound]
    rw [Int.floor_eq_iff]
    norm_num
  have h1 : calculateProcessedSize ⟨50, 50⟩ 29 = ⟨14, 14⟩ := by
    show (⟨jsRound (roundDouble (((50 : ℤ) : ℚ) * roundDouble (((29 : ℤ) : ℚ) / 100))),
          jsRound (roundDouble (((50 : ℤ) : ℚ)
            * roundDouble (((29 : ℤ) : ℚ) / 100)))⟩ : SizeL) = ⟨14, 14⟩
    rw [hfield]
  have hspecfield : jsRound (((50 : ℤ) : ℚ) * ((29 : ℤ) : ℚ) / 100) = 15 := by
    simp only [jsRound]
    rw [Int.floor_eq_iff]
    norm_num
  have h2 : processedSizeSpec ⟨50, 50⟩ 29 = ⟨15, 15⟩ := by
    show (⟨jsRound (((50 : ℤ) : ℚ) * ((29 : ℤ) : ℚ) / 100),
          jsRound (((50 : ℤ) : ℚ) * ((29 : ℤ) : ℚ) / 100)⟩ : SizeL) = ⟨15, 15⟩
    rw [hspecfield]
  refine ⟨h1, h2, ?_⟩
  rw [h1, h2]
  decide

/-- Claim C10 (amended): the geometry helpers compute
`Math.round(dimension * (percent / 100))` in binary64 — which agrees with the exact
`round(dimension * percent / 100)` on the claim's instances, though not universally (see
the counterexample) — and the feedback classification is exactly: green (pixel-perfect)
iff the display zoom equals 100, red (downscaled) iff below, blue (upscaled) iff
above. -/
theorem c10_geometry :
    calculateProcessedSize ⟨1000, 500⟩ 10 = ⟨100, 50⟩ ∧
    calculateCanvasSize ⟨100, 50⟩ 200 = ⟨200, 100⟩ ∧
    getBorderColor 100 = BorderColor.green ∧
    getBorderColor 50 = BorderColor.red ∧
    getBorderColor 150 = BorderColor.blue ∧
    (∀ z : ℤ, (getBorderColor z = BorderColor.green ↔ z = 100) ∧
      (getBorderColor z = BorderColor.red ↔ z < 100) ∧
      (getBorderColor z = BorderColor.blue ↔ 100 < z)) := by
  have hw1 : jsRound (roundDouble (((1000 : ℤ) : ℚ)
      * roundDouble (((10 : ℤ) : ℚ) / 100))) = 100 := by
    rw [show (((10 : ℤ) : ℚ)) / 100 = 10 / 100 by norm_num, roundDouble_10cent,
      show (((1000 : ℤ) : ℚ)) * ((7205759403792794 : ℚ) / 2 ^ (56 : ℤ))
        = (1000 : ℚ) * (7205759403792794 / 2 ^ (56 : ℤ)) by norm_num,
      roundDouble_1000x10]
    exact jsRound_int 100
  have hh1 : jsRound (roundDouble (((500 : ℤ) : ℚ)
      * roundDouble (((10 : ℤ) : ℚ) / 100))) = 50 := by
    rw [show (((10 : ℤ) : ℚ)) / 100 = 10 / 100 by norm_num, roundDouble_10cent,
      show (((500 : ℤ) : ℚ)) * ((7205759403792794 : ℚ) / 2 ^ (56 : ℤ))
        = (500 : ℚ) * (7205759403792794 / 2 ^ (56 : ℤ)) by norm_num,
      roundDouble_500x10]
    exact jsRound_int 50
  have hw2 : jsRound (roundDouble (((100 : ℤ) : ℚ)
      * roundDouble (((200 : ℤ) : ℚ) / 100))) = 200 := by
    rw [show (((200 : ℤ) : ℚ)) / 100 = (2 : ℚ) by norm_num, roundDouble_two,
      show (((100 : ℤ) : ℚ)) * (2 : ℚ) = (200 : ℚ) by norm_num, roundDouble_200]
    exact jsRound_int 200
  have hh2 : jsRound (roundDouble (((50 : ℤ) : ℚ)
      * roundDouble (((200 : ℤ) : ℚ) / 100))) = 100 := by
    rw [show (((200 : ℤ) : ℚ)) / 100 = (2 : ℚ) by norm_num, roundDouble_two,
      show (((50 : ℤ) : ℚ)) * (2 : ℚ) = (100 : ℚ) by norm_num, roundDouble_100]
    exact jsRound_int 100
  refine ⟨?_, ?_, by decide, by decide, by decide, ?_⟩
  · show (⟨jsRound (roundDouble (((1000 : ℤ) : ℚ) * roundDouble (((10 : ℤ) : ℚ) / 100))),
        jsRound (roundDouble (((500 : ℤ) : ℚ)
          * roundDouble (((10 : ℤ) : ℚ) / 100)))⟩ : SizeL) = ⟨100, 50⟩
    rw [hw1, hh1]
  · show (⟨jsRound (roundDouble (((100 : ℤ) : ℚ) * roundDouble (((200 : ℤ) : ℚ) / 100))),
        jsRound (roundDouble (((50 : ℤ) : ℚ)
          * roundDouble (((200 : ℤ) : ℚ) / 100)))⟩ : SizeL) = ⟨200, 100⟩
    rw [hw2, hh2]
  · intro z
    refine ⟨?_, ?_, ?_⟩ <;> simp only [getBorderColor] <;> split_ifs with h1 h2 <;>
      simp_all <;> omega
